import Mathlib

/-!
Verification of the roadtrip package (Go): section locator, record decoder,
date parsing and top-level assembly, shallowly embedded in Lean.

Bytes are modelled as natural numbers (`List Nat`); Go strings and byte
slices both become `List Nat`. Functions that can panic in Go (slice
expressions with improper bounds) return `Option`, with `none` marking the
panic. The iteration order of a Go map is arbitrary, so the locator is
parametrized by the order in which the loop visits the offset map values;
theorems about it quantify over every permutation of those values.
-/

set_option autoImplicit false
set_option maxRecDepth 10000

namespace Roadtrip

/-! ## Section locator (roadtrip.go) -/

/-- Byte representation of an ASCII Lean string, used for the Go byte
slices and search patterns. -/
def strBytes (s : String) : List Nat := s.toList.map Char.toNat

/-- The six section headers, in the order of the struct tags of the
Vehicle struct (function SectionHeaderList in roadtrip.go). -/
def sectionHeaderList : List String :=
  ["VEHICLE", "FUEL RECORDS", "MAINTENANCE RECORDS", "ROAD TRIPS",
   "TIRE LOG", "VALUATIONS"]

/-- Helper for bytes.Index: first position at or after the accumulator
where pat occurs in hay, scanning left to right. -/
def bytesIndexAux (pat : List Nat) : List Nat → Nat → Option Nat
  | [], k => if pat.isPrefixOf ([] : List Nat) then some k else none
  | c :: t, k =>
    if pat.isPrefixOf (c :: t) then some k else bytesIndexAux pat t (k + 1)

/-- Go bytes.Index: index of the first occurrence of pat in hay, or -1 if
pat does not occur. -/
def bytesIndex (hay pat : List Nat) : Int :=
  match bytesIndexAux pat hay 0 with
  | some k => (k : Int)
  | none => -1

/-- The association of each registered header with its first occurrence
offset: the sectionStart map built by GetSectionContents. -/
def headerOffsets (data : List Nat) : List (String × Int) :=
  sectionHeaderList.map (fun h => (h, bytesIndex data (strBytes h)))

/-- The multiset of values of the sectionStart map, in registration
order. A Go for-range loop over the map sees some permutation of this
list. -/
def sectionOffsets (data : List Nat) : List Int :=
  sectionHeaderList.map (fun h => bytesIndex data (strBytes h))

/-- Go map read sectionStart[sectionHeader]: the recorded offset, or the
zero value 0 when the key is not registered. -/
def startOffset (data : List Nat) (sectionHeader : String) : Int :=
  match (headerOffsets data).lookup sectionHeader with
  | some i => i
  | none => 0

/-- The loop of GetSectionContents that narrows endPosition: each visited
offset e with startPosition < e < endPosition replaces endPosition by
e - 1. The list argument is the iteration order of the map. -/
def endPositionFold (offsets : List Int) (startPosition endInit : Int) : Int :=
  offsets.foldl
    (fun acc e => if startPosition < e ∧ e < acc then e - 1 else acc) endInit

/-- The final startPosition of GetSectionContents: recorded offset plus
header length plus one. -/
def goStartPosition (data : List Nat) (sectionHeader : String) : Int :=
  startOffset data sectionHeader + ((strBytes sectionHeader).length : Int) + 1

/-- The final endPosition of GetSectionContents under a given map
iteration order. -/
def goEndPosition (data : List Nat) (sectionHeader : String)
    (order : List Int) : Int :=
  endPositionFold order (startOffset data sectionHeader) (data.length : Int)

/-- GetSectionContents with an explicit iteration order for the map
values. Returns none exactly when the final Go slice expression
dataBytes[startPosition:endPosition] would panic; the last bound check
matches the Go requirement endPosition ≤ cap (endPosition never exceeds
the initial length, so the two agree). -/
def GetSectionContentsOrd (data : List Nat) (sectionHeader : String)
    (order : List Int) : Option (List Nat) :=
  if 0 ≤ goStartPosition data sectionHeader ∧
      goStartPosition data sectionHeader ≤ goEndPosition data sectionHeader order ∧
      goEndPosition data sectionHeader order ≤ (data.length : Int) then
    some ((data.drop (goStartPosition data sectionHeader).toNat).take
      (goEndPosition data sectionHeader order - goStartPosition data sectionHeader).toNat)
  else
    none

/-- GetSectionContents at the canonical iteration order (registration
order of the headers). -/
def GetSectionContents (data : List Nat) (sectionHeader : String) :
    Option (List Nat) :=
  GetSectionContentsOrd data sectionHeader (sectionOffsets data)

/-- An occurrence of pat at position i of data. -/
def occursAt (data pat : List Nat) (i : Nat) : Prop := pat <+: data.drop i

instance (data pat : List Nat) (i : Nat) : Decidable (occursAt data pat i) :=
  inferInstanceAs (Decidable (pat <+: data.drop i))

/-- Number of positions of data at which pat occurs. -/
def countOcc (data pat : List Nat) : Nat :=
  ((List.range (data.length + 1)).filter
    (fun i => decide (occursAt data pat i))).length

/-- The byte range the specification text assigns to a section: content
start is the header offset plus header length plus one, content end is
the minimum offset, among all found headers, that lies strictly after the
header offset, or the document end when there is none. Written from the
words of the spec, for comparison with GetSectionContents. -/
def specMinAfter (data : List Nat) (h0 : Int) : Option Int :=
  ((sectionOffsets data).filter (fun e => decide (h0 < e))).min?

/-- Content range claimed by the specification for a found header at
offset h0 (see specMinAfter). -/
def specClaimedContents (data : List Nat) (sectionHeader : String)
    (h0 : Nat) : List Nat :=
  let s := h0 + (strBytes sectionHeader).length + 1
  let e : Int := match specMinAfter data (h0 : Int) with
    | some m => m
    | none => (data.length : Int)
  (data.drop s).take (e - (s : Int)).toNat

/-! ## Record decoder

The Go code delegates CSV decoding to the third-party go-csvlib library,
whose source is not part of this repository. The decoder below is
modelled from the spec: a section is a standalone CSV document (header
row plus zero or more data rows, comma-delimited, double-quote-escaped);
columns are mapped by name to the typed fields of the record shape;
columns absent from the shape are ignored; shape fields marked optional
that are absent from the header row take the type-appropriate zero value;
a missing required column or an uncoercible value is a decode error. -/

/-- Generic splitter of a byte list on a separator byte. -/
def splitOnByte (b : Nat) : List Nat → List (List Nat)
  | [] => [[]]
  | c :: t =>
    if c = b then [] :: splitOnByte b t
    else
      match splitOnByte b t with
      | r :: rs => (c :: r) :: rs
      | [] => [[c]]

/-- Lines of a CSV block: split on the newline byte, dropping empty
lines (the common CSV convention; a trailing line terminator does not
create a row). -/
def csvRows (b : List Nat) : List (List Nat) :=
  (splitOnByte 10 b).filter (fun r => decide (r ≠ []))

/-- Comma splitter with double-quote awareness: a quote byte toggles the
quoted state and is not part of the field value, and commas inside quotes
are literal. -/
def parseFieldsAux : List Nat → Bool → List Nat → List (List Nat)
  | [], _, cur => [cur.reverse]
  | c :: t, q, cur =>
    if c = 34 then parseFieldsAux t (!q) cur
    else if c = 44 ∧ q = false then cur.reverse :: parseFieldsAux t false []
    else parseFieldsAux t q (c :: cur)

/-- The comma-separated, quote-escaped fields of one CSV line. -/
def parseFields (line : List Nat) : List (List Nat) :=
  parseFieldsAux line false []

/-- Semantic field types of the record shapes (string, integer,
floating-point; dates stay strings in the record structs). -/
inductive FieldType where
  | str
  | int
  | float
deriving DecidableEq

/-- A decoded field value. Floating-point values are modelled as exact
rationals. -/
inductive Value where
  | str (s : String)
  | int (n : Int)
  | float (q : Rat)
deriving DecidableEq

/-- The zero value of each field type (empty string, 0, 0.0). -/
def zeroOf : FieldType → Value
  | .str => .str ""
  | .int => .int 0
  | .float => .float 0

/-- One field of a record shape: Go field name, CSV column name, type,
optional flag (column may be absent from the header row) and omitempty
flag (an empty cell decodes to the zero value). -/
structure Field where
  goName : String
  col : String
  ty : FieldType
  opt : Bool
  omitEmpty : Bool
deriving DecidableEq

/-- A decoded record: the shape fields in order, each with its value. -/
def CsvRecord := List (String × Value)
deriving DecidableEq

/-- Decode errors of the record decoder, modelled from the spec error
kinds (missing required column, row that does not coerce, malformed
block). -/
inductive DecodeError where
  | headerNotFound
  | requiredColumnMissing (col : String)
  | fieldCount (row : Nat)
  | badValue (row : Nat) (col : String)
deriving DecidableEq

/-- ASCII string from bytes, for decoded string values. -/
def stringOfBytes (l : List Nat) : String :=
  ⟨l.map Char.ofNat⟩

/-- Numeric value of a nonempty all-digit byte list. -/
def digitsVal (l : List Nat) : Option Nat :=
  if l ≠ [] ∧ l.all (fun c => 48 ≤ c ∧ c ≤ 57) then
    some (l.foldl (fun a c => a * 10 + (c - 48)) 0)
  else
    none

/-- Integer parser: optional leading minus sign, then digits. -/
def parseIntBytes (l : List Nat) : Option Int :=
  match l with
  | 45 :: rest => (digitsVal rest).map (fun n => -(n : Int))
  | _ => (digitsVal l).map (fun n => (n : Int))

/-- Decimal parser for floating-point columns: optional minus sign, then
digits with an optional fractional part, read as an exact rational. -/
def parseRatUnsigned (l : List Nat) : Option Rat :=
  match splitOnByte 46 l with
  | [ds] => (digitsVal ds).map (fun n => (n : Rat))
  | [ds, fs] =>
    match digitsVal ds, digitsVal fs with
    | some n, some f => some ((n : Rat) + (f : Rat) / ((10 : Rat) ^ fs.length))
    | _, _ => none
  | _ => none

def parseRatBytes (l : List Nat) : Option Rat :=
  match l with
  | 45 :: rest => (parseRatUnsigned rest).map Neg.neg
  | _ => parseRatUnsigned l

/-- Coerce one cell to the declared type of a shape field. An empty cell
of a numeric omitempty field decodes to zero. -/
def parseTyped (f : Field) (cell : List Nat) (row : Nat) :
    Except DecodeError Value :=
  match f.ty with
  | .str => .ok (.str (stringOfBytes cell))
  | .int =>
    if cell = [] then
      if f.omitEmpty then .ok (.int 0) else .error (.badValue row f.col)
    else
      match parseIntBytes cell with
      | some n => .ok (.int n)
      | none => .error (.badValue row f.col)
  | .float =>
    if cell = [] then
      if f.omitEmpty then .ok (.float 0) else .error (.badValue row f.col)
    else
      match parseRatBytes cell with
      | some q => .ok (.float q)
      | none => .error (.badValue row f.col)

/-- Index of the first occurrence of a column name in the parsed header
row. -/
def indexOfCol : List (List Nat) → List Nat → Option Nat
  | [], _ => none
  | c :: t, pat =>
    if c = pat then some 0 else (indexOfCol t pat).map (· + 1)

/-- First required shape column that the header row does not provide. -/
def firstMissingRequired : List Field → List (List Nat) → Option String
  | [], _ => none
  | f :: fs, cols =>
    if f.opt = false ∧ indexOfCol cols (strBytes f.col) = none then
      some f.col
    else
      firstMissingRequired fs cols

/-- Value of one shape field taken from one data row; a column absent
from the header row yields the zero value (required columns were already
checked against the header row). -/
def fieldValue (f : Field) (cols : List (List Nat)) (row : List (List Nat))
    (ri : Nat) : Except DecodeError Value :=
  match indexOfCol cols (strBytes f.col) with
  | none => .ok (zeroOf f.ty)
  | some j => parseTyped f (row.getD j []) ri

/-- Decode the fields of one data row against the shape. -/
def decodeFieldList (cols : List (List Nat)) (row : List (List Nat))
    (ri : Nat) : List Field → Except DecodeError CsvRecord
  | [] => .ok []
  | f :: fs =>
    match fieldValue f cols row ri with
    | .error e => .error e
    | .ok v =>
      match decodeFieldList cols row ri fs with
      | .error e => .error e
      | .ok rest => .ok ((f.goName, v) :: rest)

/-- Decode one data row: the field count must match the header row. -/
def decodeRow (shape : List Field) (cols : List (List Nat))
    (ri : Nat) (line : List (List Nat)) : Except DecodeError CsvRecord :=
  if line.length = cols.length then decodeFieldList cols line ri shape
  else .error (.fieldCount ri)

/-- Decode all data rows in order, numbering rows from zero. -/
def decodeDataRows (shape : List Field) (cols : List (List Nat)) :
    Nat → List (List (List Nat)) → Except DecodeError (List CsvRecord)
  | _, [] => .ok []
  | ri, line :: rest =>
    match decodeRow shape cols ri line with
    | .error e => .error e
    | .ok r =>
      match decodeDataRows shape cols (ri + 1) rest with
      | .error e => .error e
      | .ok rs => .ok (r :: rs)

/-- Decode a table of already-split rows: first row is the header row;
required shape columns must appear in it. -/
def decodeTable (shape : List Field) (table : List (List (List Nat))) :
    Except DecodeError (List CsvRecord) :=
  match table with
  | [] => .error .headerNotFound
  | hdr :: dataRows =>
    match firstMissingRequired shape hdr with
    | some c => .error (.requiredColumnMissing c)
    | none => decodeDataRows shape hdr 0 dataRows

/-- Decode one section block: split into lines, split each line into
fields, decode against the shape. -/
def decodeSection (shape : List Field) (bytes : List Nat) :
    Except DecodeError (List CsvRecord) :=
  decodeTable shape ((csvRows bytes).map parseFields)

/-! ## Record shapes (sections.go struct tags) -/

def fuelShape : List Field :=
  [⟨"Odometer", "Odometer (mi)", .float, false, false⟩,
   ⟨"TripDistance", "Trip Distance", .float, false, true⟩,
   ⟨"Date", "Date", .str, false, false⟩,
   ⟨"FillAmount", "Fill Amount", .float, false, true⟩,
   ⟨"FillUnits", "Fill Units", .str, false, false⟩,
   ⟨"PricePerUnit", "Price per Unit", .float, false, true⟩,
   ⟨"TotalPrice", "Total Price", .float, false, true⟩,
   ⟨"PartialFill", "Partial Fill", .str, false, true⟩,
   ⟨"MPG", "MPG", .float, false, true⟩,
   ⟨"Note", "Note", .str, false, false⟩,
   ⟨"Octane", "Octane", .str, false, false⟩,
   ⟨"Location", "Location", .str, false, false⟩,
   ⟨"Payment", "Payment", .str, false, false⟩,
   ⟨"Conditions", "Conditions", .str, false, false⟩,
   ⟨"Reset", "Reset", .str, false, false⟩,
   ⟨"Categories", "Categories", .str, false, false⟩,
   ⟨"Flags", "Flags", .str, false, false⟩,
   ⟨"CurrencyCode", "Currency Code", .int, false, true⟩,
   ⟨"CurrencyRate", "Currency Rate", .int, false, true⟩,
   ⟨"Latitude", "Latitude", .float, false, true⟩,
   ⟨"Longitude", "Longitude", .float, false, true⟩,
   ⟨"ID", "ID", .int, false, true⟩,
   ⟨"FuelEconomy", "Trip Comp Fuel Economy", .str, false, false⟩,
   ⟨"AvgSpeed", "Trip Comp Avg. Speed", .str, false, false⟩,
   ⟨"Temperature", "Trip Comp Temperature", .float, false, true⟩,
   ⟨"DriveTime", "Trip Comp Drive Time", .str, false, false⟩,
   ⟨"TankNumber", "Tank Number", .int, false, true⟩]

def maintenanceShape : List Field :=
  [⟨"Description", "Description", .str, false, false⟩,
   ⟨"Date", "Date", .str, false, false⟩,
   ⟨"Odometer", "Odometer (mi.)", .float, false, true⟩,
   ⟨"Cost", "Cost", .float, false, true⟩,
   ⟨"Note", "Note", .str, false, false⟩,
   ⟨"Location", "Location", .str, false, false⟩,
   ⟨"Type", "Type", .str, false, false⟩,
   ⟨"Subtype", "Subtype", .str, false, false⟩,
   ⟨"Payment", "Payment", .str, false, false⟩,
   ⟨"Categories", "Categories", .str, false, false⟩,
   ⟨"ReminderInterval", "Reminder Interval", .str, false, false⟩,
   ⟨"ReminderDistance", "Reminder Distance", .float, false, true⟩,
   ⟨"Flags", "Flags", .str, false, false⟩,
   ⟨"CurrencyCode", "Currency Code", .int, false, true⟩,
   ⟨"CurrencyRate", "Currency Rate", .int, false, true⟩,
   ⟨"Latitude", "Latitude", .float, false, true⟩,
   ⟨"Longitude", "Longitude", .float, false, true⟩,
   ⟨"ID", "ID", .int, false, true⟩,
   ⟨"NotificationInterval", "Notification Interval", .str, false, false⟩,
   ⟨"NotificationDistance", "Notification Distance", .float, false, true⟩]

def tripShape : List Field :=
  [⟨"Name", "Name", .str, false, false⟩,
   ⟨"StartDate", "Start Date", .str, false, false⟩,
   ⟨"StartOdometer", "Start Odometer (mi.)", .float, false, true⟩,
   ⟨"EndDate", "End Date", .str, false, false⟩,
   ⟨"EndOdometer", "End Odometer", .float, false, true⟩,
   ⟨"Note", "Note", .str, false, false⟩,
   ⟨"Distance", "Distance", .float, false, true⟩,
   ⟨"ID", "ID", .int, false, true⟩,
   ⟨"Type", "Type", .str, false, false⟩,
   ⟨"Categories", "Categories", .str, false, false⟩,
   ⟨"Flags", "Flags", .str, false, false⟩]

def vehicleShape : List Field :=
  [⟨"Name", "Name", .str, false, false⟩,
   ⟨"Odometer", "Odometer", .str, false, false⟩,
   ⟨"Units", "Units", .str, false, false⟩,
   ⟨"Notes", "Notes", .str, false, false⟩,
   ⟨"TankCapacity", "Tank Capacity", .float, false, true⟩,
   ⟨"Tank1Units", "Tank Units", .str, false, false⟩,
   ⟨"HomeCurrency", "Home Currency", .str, false, false⟩,
   ⟨"Flags", "Flags", .str, false, false⟩,
   ⟨"IconID", "IconID", .str, false, false⟩,
   ⟨"FuelUnits", "FuelUnits", .str, false, false⟩,
   ⟨"TripCompUnits", "TripComp Units", .str, false, false⟩,
   ⟨"TripCompSpeed", "TripComp Speed", .str, false, false⟩,
   ⟨"TripCompTemperature", "TripComp Temperature", .str, false, false⟩,
   ⟨"TripCompTimeEnabled", "TripComp Time Enabled", .str, false, false⟩,
   ⟨"OdometerShift", "Odometer Shift", .str, false, false⟩,
   ⟨"Tank1Type", "Tank 1 Type", .str, true, false⟩,
   ⟨"Tank2Type", "Tank 2 Type", .str, true, false⟩,
   ⟨"Tank2Units", "Tank 2 Units", .str, true, false⟩]

def tireShape : List Field :=
  [⟨"Name", "Name", .str, false, false⟩,
   ⟨"StartDate", "Start Date", .str, false, false⟩,
   ⟨"StartOdometer", "Start Odometer (mi.)", .float, false, true⟩,
   ⟨"Size", "Size", .str, false, false⟩,
   ⟨"SizeCorrection", "Size Correction", .str, false, false⟩,
   ⟨"Distance", "Distance", .float, false, true⟩,
   ⟨"Age", "Age", .str, false, false⟩,
   ⟨"Note", "Note", .str, false, false⟩,
   ⟨"Flags", "Flags", .str, false, false⟩,
   ⟨"ID", "ID", .int, false, true⟩,
   ⟨"ParentID", "ParentID", .int, false, true⟩]

def valuationShape : List Field :=
  [⟨"Type", "Type", .str, false, false⟩,
   ⟨"Date", "Date", .str, false, false⟩,
   ⟨"Odometer", "Odometer", .float, false, true⟩,
   ⟨"Price", "Price", .str, false, false⟩,
   ⟨"Notes", "Notes", .str, false, false⟩,
   ⟨"Flags", "Flags", .str, false, false⟩]

/-! ## Top-level assembly (Vehicle, UnmarshalRoadtrip, LoadFile) -/

/-- The Vehicle struct. The six record collections correspond to the
tagged Go struct fields; the logger is omitted (no observable state). -/
structure Vehicle where
  Delimiters : String
  Version : Int
  Language : String
  Filename : String
  Vehicles : List CsvRecord
  FuelRecords : List CsvRecord
  MaintenanceRecords : List CsvRecord
  Trips : List CsvRecord
  Tires : List CsvRecord
  Valuations : List CsvRecord
  Raw : List Nat
deriving DecidableEq

/-- NewVehicle: the zero Vehicle value. -/
def NewVehicle : Vehicle :=
  ⟨"", 0, "", "", [], [], [], [], [], [], []⟩

/-- Supported Road Trip vehicle data file version (roadtrip.go constant);
declared but never consulted during loading. -/
def SupportedVersion : Int := 1500

/-- Constant gating the erroneous-header strip (roadtrip.go). -/
def RemoveErroneousHeaders : Bool := true

/-- The erroneous VEHICLE header fields removed before parsing. -/
def omitHeaders : List Nat :=
  strBytes ",Tank 1 Type,Tank 2 Type,Tank 2 Units"

/-- Go bytes.Replace(s, old, empty, 1): remove the first occurrence of
old from s, if any. -/
def bytesReplaceOnce (s old : List Nat) : List Nat :=
  match bytesIndexAux old s 0 with
  | some k => s.take k ++ s.drop (k + old.length)
  | none => s

/-- UnmarshalRoadtripSection: extract one section and decode it against
the shape of the target collection. none marks a Go panic inside the
slice expression of GetSectionContents. -/
def UnmarshalRoadtripSection (data : List Nat) (shape : List Field)
    (header : String) : Option (Except DecodeError (List CsvRecord)) :=
  (GetSectionContents data header).map (decodeSection shape)

/-- Go fmt %s rendering of a decoded record value. -/
def goFormatValue : Value → String
  | .str s => s
  | .int n => toString n
  | .float q => toString q

/-- Go fmt %s rendering of one record (struct): field values between
braces, space separated. -/
def goFormatRecord (r : CsvRecord) : String :=
  "\x7b" ++ String.intercalate " " (r.map (fun p => goFormatValue p.2)) ++ "\x7d"

/-- Go fmt %s rendering of a pointer to a record slice, the target
argument of the error wrap in UnmarshalRoadtrip. -/
def goFormatRecords (rs : List CsvRecord) : String :=
  "&[" ++ String.intercalate " " (rs.map goFormatRecord) ++ "]"

/-- Errors returned by the load pipeline: a decode error, possibly
wrapped with a context message (fmt.Errorf with %w). -/
inductive GoError where
  | decode (e : DecodeError)
  | wrapped (ctx : String) (inner : GoError)
deriving DecidableEq

/-- The error wrap of UnmarshalRoadtrip: fmt.Errorf("unable to parse %s:
%w", target, err), where target renders as the current contents of the
collection being decoded. -/
def wrapParse (cur : List CsvRecord) (e : DecodeError) : GoError :=
  .wrapped ("unable to parse " ++ goFormatRecords cur) (.decode e)

/-- UnmarshalRoadtrip: store the raw data, then decode the six sections
in struct order, stopping at the first failure with a wrapped error.
none marks a Go panic inside GetSectionContents. -/
def UnmarshalRoadtrip (v : Vehicle) (data : List Nat) :
    Option (Except GoError Vehicle) :=
  let v0 := {v with Raw := data}
  match UnmarshalRoadtripSection data vehicleShape "VEHICLE" with
  | none => none
  | some (.error e) => some (.error (wrapParse v0.Vehicles e))
  | some (.ok r1) =>
    let v1 := {v0 with Vehicles := r1}
    match UnmarshalRoadtripSection data fuelShape "FUEL RECORDS" with
    | none => none
    | some (.error e) => some (.error (wrapParse v1.FuelRecords e))
    | some (.ok r2) =>
      let v2 := {v1 with FuelRecords := r2}
      match UnmarshalRoadtripSection data maintenanceShape "MAINTENANCE RECORDS" with
      | none => none
      | some (.error e) => some (.error (wrapParse v2.MaintenanceRecords e))
      | some (.ok r3) =>
        let v3 := {v2 with MaintenanceRecords := r3}
        match UnmarshalRoadtripSection data tripShape "ROAD TRIPS" with
        | none => none
        | some (.error e) => some (.error (wrapParse v3.Trips e))
        | some (.ok r4) =>
          let v4 := {v3 with Trips := r4}
          match UnmarshalRoadtripSection data tireShape "TIRE LOG" with
          | none => none
          | some (.error e) => some (.error (wrapParse v4.Tires e))
          | some (.ok r5) =>
            let v5 := {v4 with Tires := r5}
            match UnmarshalRoadtripSection data valuationShape "VALUATIONS" with
            | none => none
            | some (.error e) => some (.error (wrapParse v5.Valuations e))
            | some (.ok r6) => some (.ok {v5 with Valuations := r6})

/-- LoadFile with the file contents supplied (the os.ReadFile error path
is outside the model): record the filename, strip the erroneous VEHICLE
header fields once, then unmarshal. -/
def LoadFile (v : Vehicle) (filename : String) (contents : List Nat) :
    Option (Except GoError Vehicle) :=
  let v1 := {v with Filename := filename}
  let buf :=
    if RemoveErroneousHeaders then bytesReplaceOnce contents omitHeaders
    else contents
  UnmarshalRoadtrip v1 buf

/-! ## Date parsing (ParseDate)

Modelled from the spec: the Go time package is not part of this
repository. First layout is year-month-day hour:minute (4-digit year,
1-2 digit month and day, 24-hour time); the fallback layout is
year-month-day alone, meaning midnight. -/

/-- Calendar date-time with minute precision. -/
structure GoTime where
  year : Nat
  month : Nat
  day : Nat
  hour : Nat
  minute : Nat
deriving DecidableEq

/-- Generic splitter of a character list on a separator character. -/
def splitOnChar (sep : Char) : List Char → List (List Char)
  | [] => [[]]
  | c :: t =>
    if c = sep then [] :: splitOnChar sep t
    else
      match splitOnChar sep t with
      | r :: rs => (c :: r) :: rs
      | [] => [[c]]

/-- Numeric value of a nonempty all-digit character list. -/
def digitsValC (l : List Char) : Option Nat :=
  if l ≠ [] ∧ l.all Char.isDigit then
    some (l.foldl (fun a c => a * 10 + (c.toNat - 48)) 0)
  else
    none

/-- Modelled from the spec: the date part of both layouts, a 4-digit
year, a 1-2 digit month and a 1-2 digit day separated by dashes, with
basic range checks. -/
def parseYMD (l : List Char) : Option (Nat × Nat × Nat) :=
  match splitOnChar (Char.ofNat 45) l with
  | [ys, ms, ds] =>
    match digitsValC ys, digitsValC ms, digitsValC ds with
    | some y, some m, some d =>
      if ys.length = 4 ∧ 1 ≤ ms.length ∧ ms.length ≤ 2 ∧
          1 ≤ ds.length ∧ ds.length ≤ 2 ∧
          1 ≤ m ∧ m ≤ 12 ∧ 1 ≤ d ∧ d ≤ 31 then
        some (y, m, d)
      else
        none
    | _, _, _ => none
  | _ => none

/-- Modelled from the spec: the 24-hour hour:minute part of the first
layout. -/
def parseHM (l : List Char) : Option (Nat × Nat) :=
  match splitOnChar (Char.ofNat 58) l with
  | [hs, ms] =>
    match digitsValC hs, digitsValC ms with
    | some hh, some mi =>
      if 1 ≤ hs.length ∧ hs.length ≤ 2 ∧ ms.length = 2 ∧
          hh ≤ 23 ∧ mi ≤ 59 then
        some (hh, mi)
      else
        none
    | _, _ => none
  | _ => none

/-- Layout "2006-1-2 15:04": date, one space, time. -/
def parseLayoutDateTime (s : String) : Option GoTime :=
  match splitOnChar (Char.ofNat 32) s.toList with
  | [dp, tp] =>
    match parseYMD dp, parseHM tp with
    | some (y, m, d), some (hh, mi) => some ⟨y, m, d, hh, mi⟩
    | _, _ => none
  | _ => none

/-- Layout "2006-1-2": date alone, implying midnight. -/
def parseLayoutDate (s : String) : Option GoTime :=
  match parseYMD s.toList with
  | some (y, m, d) => some ⟨y, m, d, 0, 0⟩
  | none => none

/-- ParseDate: first layout with time of day, then the date-only
fallback, otherwise a wrapped error. -/
def ParseDate (s : String) : Except String GoTime :=
  match parseLayoutDateTime s with
  | some t => .ok t
  | none =>
    match parseLayoutDate s with
    | some t => .ok t
    | none => .error ("unable to parse date " ++ s)

/-! ## Document builder for well-formed documents

A well-formed document is an arrangement of the six sections in some
order: each block is its header line (header string, newline) followed by
the section body. Validity further requires each header to occur exactly
once in the document and each body to end with a newline. -/

/-- Assemble a document from an ordering of the headers and a body
assignment. -/
def docOf (assign : String → List Nat) : List String → List Nat
  | [] => []
  | h :: t => strBytes h ++ 10 :: (assign h ++ docOf assign t)

/-- Length of the block contributed by one header. -/
def blockLen (assign : String → List Nat) (h : String) : Nat :=
  (strBytes h).length + 1 + (assign h).length

/-- Validity of an assembled document: the ordering is a permutation of
the registered headers, every body ends with a newline, and every header
occurs exactly once in the document. -/
def ValidDoc (assign : String → List Nat) (ord : List String) : Prop :=
  ord.Perm sectionHeaderList ∧
  (∀ h ∈ sectionHeaderList, (assign h).getLast? = some 10) ∧
  (∀ h ∈ sectionHeaderList, countOcc (docOf assign ord) (strBytes h) = 1)

/-- The Vehicle value with the retained raw document cleared, used to
compare parse results up to the Raw field. -/
def eraseRaw (v : Vehicle) : Vehicle := {v with Raw := []}

/-- The result assembly of UnmarshalRoadtrip expressed over the six
section decode outcomes; used to reason about the pipeline without
recomputing the extractions. -/
def assembleResult (v : Vehicle) (data : List Nat)
    (r1 r2 r3 r4 r5 r6 : Except DecodeError (List CsvRecord)) :
    Except GoError Vehicle :=
  let v0 := {v with Raw := data}
  match r1 with
  | .error e => .error (wrapParse v0.Vehicles e)
  | .ok c1 =>
    let v1 := {v0 with Vehicles := c1}
    match r2 with
    | .error e => .error (wrapParse v1.FuelRecords e)
    | .ok c2 =>
      let v2 := {v1 with FuelRecords := c2}
      match r3 with
      | .error e => .error (wrapParse v2.MaintenanceRecords e)
      | .ok c3 =>
        let v3 := {v2 with MaintenanceRecords := c3}
        match r4 with
        | .error e => .error (wrapParse v3.Trips e)
        | .ok c4 =>
          let v4 := {v3 with Trips := c4}
          match r5 with
          | .error e => .error (wrapParse v4.Tires e)
          | .ok c5 =>
            let v5 := {v4 with Tires := c5}
            match r6 with
            | .error e => .error (wrapParse v5.Valuations e)
            | .ok c6 => .ok {v5 with Valuations := c6}

/-- Whether a load outcome is a full success. -/
def loadOk (r : Option (Except GoError Vehicle)) : Bool :=
  match r with
  | some (.ok _) => true
  | _ => false

deriving instance DecidableEq for Except

/-- The Vehicle after successfully loading a document in which every
section holds only its header row. -/
def emptyLoaded (v : Vehicle) (d : List Nat) : Vehicle :=
  { v with
    Raw := d
    Vehicles := []
    FuelRecords := []
    MaintenanceRecords := []
    Trips := []
    Tires := []
    Valuations := [] }

/-! ## Concrete documents used as test inputs -/

/-- A document with a VEHICLE section followed by a FUEL RECORDS
section. -/
def c1Doc : List Nat := strBytes "VEHICLE\nAB\nFUEL RECORDS\nX"

/-- The CSV header row listing every column of a shape. -/
def shapeHeaderRow (shape : List Field) : List Nat :=
  List.intercalate [44] (shape.map (fun f => strBytes f.col))

/-- The record shape of each section header. -/
def sectionShapes (h : String) : List Field :=
  if h = "VEHICLE" then vehicleShape
  else if h = "FUEL RECORDS" then fuelShape
  else if h = "MAINTENANCE RECORDS" then maintenanceShape
  else if h = "ROAD TRIPS" then tripShape
  else if h = "TIRE LOG" then tireShape
  else valuationShape

/-- Body assignment with the full CSV header row of each section and no
data rows; the VEHICLE header row omits the three optional Tank columns,
so the document contains no erroneous substring. -/
def assignFull (h : String) : List Nat :=
  if h = "VEHICLE" then
    shapeHeaderRow (vehicleShape.filter (fun f => f.opt = false)) ++ [10]
  else
    shapeHeaderRow (sectionShapes h) ++ [10]

/-- The registered header order reversed, a second arrangement of the
same sections. -/
def revOrd : List String := sectionHeaderList.reverse

/-- Body assignment for the first failing-load document: the FUEL
RECORDS header row omits the required column Note. -/
def assignNoFuelNote (h : String) : List Nat :=
  if h = "FUEL RECORDS" then
    shapeHeaderRow (fuelShape.filter (fun f => decide (f.col ≠ "Note"))) ++ [10]
  else
    assignFull h

/-- Body assignment for the second failing-load document: the TIRE LOG
header row omits the required column Note. -/
def assignNoTireNote (h : String) : List Nat :=
  if h = "TIRE LOG" then
    shapeHeaderRow (tireShape.filter (fun f => decide (f.col ≠ "Note"))) ++ [10]
  else
    assignFull h

end Roadtrip

namespace Roadtrip

/-! ## Helper theorems: the endPosition loop -/

theorem endPositionFold_cons (e : Int) (t : List Int) (s a : Int) :
    endPositionFold (e :: t) s a =
      endPositionFold t s (if s < e ∧ e < a then e - 1 else a) := rfl

/-- If no visited offset lies strictly between startPosition and the
initial endPosition, the loop leaves endPosition unchanged. -/
theorem endPositionFold_of_none (l : List Int) (s : Int) :
    ∀ a : Int, (∀ e ∈ l, ¬ (s < e ∧ e < a)) → endPositionFold l s a = a := by
  induction l with
  | nil => intro a _; rfl
  | cons e t ih =>
    intro a hnone
    rw [endPositionFold_cons, if_neg (hnone e (List.mem_cons_self e t))]
    exact ih a fun x hx => hnone x (List.mem_cons_of_mem e hx)

/-- If m is the least visited offset strictly above startPosition, m is
below the initial endPosition, and no visited offset equals m + 1, then
the loop ends with endPosition = m - 1, whatever the iteration order. -/
theorem endPositionFold_of_min (l : List Int) (s m : Int) (hsm : s < m) :
    ∀ a : Int, m ∈ l → m < a →
      (∀ e ∈ l, s < e → m ≤ e) → (∀ e ∈ l, e ≠ m + 1) →
      endPositionFold l s a = m - 1 := by
  induction l with
  | nil => intro a hm; cases hm
  | cons e t ih =>
    intro a hm hma hmin hadj
    rw [endPositionFold_cons]
    by_cases hc : s < e ∧ e < a
    · rw [if_pos hc]
      rcases eq_or_ne e m with rfl | hne
      · apply endPositionFold_of_none
        intro x hx hcontra
        have hxm : e ≤ x := hmin x (List.mem_cons_of_mem e hx) hcontra.1
        omega
      · have h1 : m ≤ e := hmin e (List.mem_cons_self e t) hc.1
        have h2 : e ≠ m + 1 := hadj e (List.mem_cons_self e t)
        have hmt : m ∈ t := by
          rcases List.mem_cons.mp hm with h | h
          · exact absurd h.symm hne
          · exact h
        exact ih (e - 1) hmt (by omega)
          (fun x hx hs => hmin x (List.mem_cons_of_mem e hx) hs)
          (fun x hx => hadj x (List.mem_cons_of_mem e hx))
    · rw [if_neg hc]
      rcases eq_or_ne e m with rfl | hne
      · exact absurd ⟨hsm, hma⟩ hc
      · have hmt : m ∈ t := by
          rcases List.mem_cons.mp hm with h | h
          · exact absurd h.symm hne
          · exact h
        exact ih a hmt hma
          (fun x hx hs => hmin x (List.mem_cons_of_mem e hx) hs)
          (fun x hx => hadj x (List.mem_cons_of_mem e hx))

/-- The loop never increases endPosition. -/
theorem endPositionFold_le (l : List Int) (s : Int) :
    ∀ a : Int, endPositionFold l s a ≤ a := by
  induction l with
  | nil => intro a; exact le_refl a
  | cons e t ih =>
    intro a
    rw [endPositionFold_cons]
    by_cases hc : s < e ∧ e < a
    · rw [if_pos hc]; have := ih (e - 1); omega
    · rw [if_neg hc]; exact ih a

/-! ## Helper theorems: bytesIndex -/

theorem bytesIndexAux_some (pat : List Nat) :
    ∀ (hay : List Nat) (k j : Nat), bytesIndexAux pat hay k = some j →
      k ≤ j ∧ occursAt hay pat (j - k) ∧
        ∀ i : Nat, i < j - k → ¬ occursAt hay pat i := by
  intro hay
  induction hay with
  | nil =>
    intro k j h
    unfold bytesIndexAux at h
    by_cases hp : pat.isPrefixOf ([] : List Nat)
    · rw [if_pos hp] at h
      cases h
      refine ⟨le_refl _, ?_, ?_⟩
      · simpa [occursAt] using List.isPrefixOf_iff_prefix.mp hp
      · intro i hi; omega
    · rw [if_neg hp] at h; cases h
  | cons c t ih =>
    intro k j h
    unfold bytesIndexAux at h
    by_cases hp : pat.isPrefixOf (c :: t)
    · rw [if_pos hp] at h
      cases h
      refine ⟨le_refl _, ?_, ?_⟩
      · simpa [occursAt] using List.isPrefixOf_iff_prefix.mp hp
      · intro i hi; omega
    · rw [if_neg hp] at h
      obtain ⟨hk, hocc, hmin⟩ := ih (k + 1) j h
      refine ⟨by omega, ?_, ?_⟩
      · have heq : j - k = (j - (k + 1)) + 1 := by omega
        rw [heq]
        simpa [occursAt, List.drop_succ_cons] using hocc
      · intro i hi
        match i with
        | 0 =>
          simp only [occursAt, List.drop_zero]
          exact fun hpre => hp (List.isPrefixOf_iff_prefix.mpr hpre)
        | i' + 1 =>
          have hlt : i' < j - (k + 1) := by omega
          simpa [occursAt, List.drop_succ_cons] using hmin i' hlt

theorem bytesIndexAux_none (pat : List Nat) :
    ∀ (hay : List Nat) (k : Nat), bytesIndexAux pat hay k = none →
      ∀ i : Nat, ¬ occursAt hay pat i := by
  intro hay
  induction hay with
  | nil =>
    intro k h i
    unfold bytesIndexAux at h
    by_cases hp : pat.isPrefixOf ([] : List Nat)
    · rw [if_pos hp] at h; cases h
    · rw [if_neg hp] at h
      simp only [occursAt, List.drop_nil]
      exact fun hpre => hp (List.isPrefixOf_iff_prefix.mpr hpre)
  | cons c t ih =>
    intro k h i
    unfold bytesIndexAux at h
    by_cases hp : pat.isPrefixOf (c :: t)
    · rw [if_pos hp] at h; cases h
    · rw [if_neg hp] at h
      match i with
      | 0 =>
        simp only [occursAt, List.drop_zero]
        exact fun hpre => hp (List.isPrefixOf_iff_prefix.mpr hpre)
      | i' + 1 =>
        simpa [occursAt, List.drop_succ_cons] using ih (k + 1) h i'

/-- First-occurrence characterization of bytesIndex for a nonnegative
result. -/
theorem bytesIndex_nonneg_spec (hay pat : List Nat) (k : Nat)
    (h : bytesIndex hay pat = (k : Int)) :
    occursAt hay pat k ∧ ∀ i : Nat, i < k → ¬ occursAt hay pat i := by
  unfold bytesIndex at h
  cases haux : bytesIndexAux pat hay 0 with
  | none => rw [haux] at h; cases h
  | some j =>
    rw [haux] at h
    have h2 : (j : Int) = (k : Int) := h
    have hjk : j = k := by exact_mod_cast h2
    subst hjk
    obtain ⟨_, hocc, hmin⟩ := bytesIndexAux_some pat hay 0 j haux
    simpa using ⟨hocc, hmin⟩

theorem bytesIndex_neg_spec (hay pat : List Nat)
    (h : bytesIndex hay pat = -1) : ∀ i : Nat, ¬ occursAt hay pat i := by
  unfold bytesIndex at h
  cases haux : bytesIndexAux pat hay 0 with
  | none => exact bytesIndexAux_none pat hay 0 haux
  | some j => rw [haux] at h; cases h

theorem bytesIndex_ge_neg_one (hay pat : List Nat) :
    -1 ≤ bytesIndex hay pat := by
  unfold bytesIndex
  cases bytesIndexAux pat hay 0 with
  | none => exact le_refl _
  | some j => show (-1 : Int) ≤ (j : Int); omega

theorem bytesIndex_cases (hay pat : List Nat) :
    bytesIndex hay pat = -1 ∨ ∃ k : Nat, bytesIndex hay pat = (k : Int) := by
  unfold bytesIndex
  cases bytesIndexAux pat hay 0 with
  | none => exact Or.inl rfl
  | some j => exact Or.inr ⟨j, rfl⟩

/-- If pat occurs somewhere, bytesIndex finds an occurrence no later than
it. -/
theorem bytesIndex_le_of_occursAt (hay pat : List Nat) (s : Nat)
    (hocc : occursAt hay pat s) :
    ∃ k : Nat, k ≤ s ∧ bytesIndex hay pat = (k : Int) := by
  rcases bytesIndex_cases hay pat with h | ⟨k, hk⟩
  · exact absurd hocc (bytesIndex_neg_spec hay pat h s)
  · refine ⟨k, ?_, hk⟩
    by_contra hlt
    exact (bytesIndex_nonneg_spec hay pat k hk).2 s (by omega) hocc

/-- A found occurrence of a nonempty pattern starts strictly before the
end of the data. -/
theorem bytesIndex_lt_length (hay pat : List Nat) (k : Nat)
    (hpat : pat ≠ []) (h : bytesIndex hay pat = (k : Int)) :
    k < hay.length := by
  obtain ⟨hocc, _⟩ := bytesIndex_nonneg_spec hay pat k h
  by_contra hge
  have hdrop : hay.drop k = [] := List.drop_eq_nil_of_le (by omega)
  rw [occursAt, hdrop] at hocc
  exact hpat (List.prefix_nil.mp hocc)

/-! ## Helper theorems: occurrence counting -/

theorem occursAt_lt_length (data pat : List Nat) (i : Nat) (hpat : pat ≠ [])
    (h : occursAt data pat i) : i < data.length := by
  by_contra hge
  have hdrop : data.drop i = [] := List.drop_eq_nil_of_le (by omega)
  rw [occursAt, hdrop] at h
  exact hpat (List.prefix_nil.mp h)

/-- With exactly one occurrence in the document, any two occurrence
positions coincide. -/
theorem countOcc_unique (data pat : List Nat) (hpat : pat ≠ [])
    (hcount : countOcc data pat = 1) (i j : Nat)
    (hi : occursAt data pat i) (hj : occursAt data pat j) : i = j := by
  by_contra hne
  have hmem : ∀ x : Nat, occursAt data pat x →
      x ∈ (List.range (data.length + 1)).filter
        (fun y => decide (occursAt data pat y)) := by
    intro x hx
    refine List.mem_filter.mpr ⟨List.mem_range.mpr ?_, by simpa using hx⟩
    have := occursAt_lt_length data pat x hpat hx
    omega
  have hsub : [i, j] ⊆ (List.range (data.length + 1)).filter
      (fun y => decide (occursAt data pat y)) := by
    intro x hx
    rcases List.mem_cons.mp hx with rfl | hx2
    · exact hmem x hi
    · rcases List.mem_cons.mp hx2 with rfl | hx3
      · exact hmem x hj
      · cases hx3
  have hnodup : ([i, j] : List Nat).Nodup := by simp [hne]
  have hlen := (List.subperm_of_subset hnodup hsub).length_le
  rw [countOcc] at hcount
  rw [hcount] at hlen
  simp at hlen

/-- With exactly one occurrence, bytesIndex returns precisely that
occurrence position. -/
theorem bytesIndex_of_unique (data pat : List Nat) (hpat : pat ≠ [])
    (hcount : countOcc data pat = 1) (s : Nat)
    (hocc : occursAt data pat s) : bytesIndex data pat = (s : Int) := by
  obtain ⟨k, _, hkeq⟩ := bytesIndex_le_of_occursAt data pat s hocc
  have hk : occursAt data pat k := (bytesIndex_nonneg_spec data pat k hkeq).1
  have := countOcc_unique data pat hpat hcount k s hk hocc
  rw [hkeq, this]

/-! ## Helper theorems: the registered headers -/

theorem headers_length_ge_two :
    ∀ h ∈ sectionHeaderList, 2 ≤ (strBytes h).length := by decide

theorem headers_ne_nil : ∀ h ∈ sectionHeaderList, strBytes h ≠ [] := by decide

/-- For any two registered headers, the second byte of one never equals
the first byte of the other. Hence two found offsets can never be
adjacent. -/
theorem headers_second_ne_first :
    ∀ h1 ∈ sectionHeaderList, ∀ h2 ∈ sectionHeaderList,
      (strBytes h1)[1]? ≠ (strBytes h2)[0]? := by decide

/-- The Go map lookup sectionStart[h] for a registered header h is its
bytesIndex offset. -/
theorem startOffset_eq_bytesIndex (data : List Nat) (h : String)
    (hmem : h ∈ sectionHeaderList) :
    startOffset data h = bytesIndex data (strBytes h) := by
  fin_cases hmem <;> rfl

/-- Occurrences of two registered headers never start at adjacent
positions: the overlap would force the second byte of one header to be
the first byte of the other. -/
theorem no_adjacent_offsets (data : List Nat) (h1 h2 : String)
    (m1 : h1 ∈ sectionHeaderList) (m2 : h2 ∈ sectionHeaderList) (k : Nat)
    (e1 : bytesIndex data (strBytes h1) = (k : Int))
    (e2 : bytesIndex data (strBytes h2) = ((k + 1 : Nat) : Int)) : False := by
  have occ1 := (bytesIndex_nonneg_spec data (strBytes h1) k e1).1
  have occ2 := (bytesIndex_nonneg_spec data (strBytes h2) (k + 1) e2).1
  unfold occursAt at occ1 occ2
  obtain ⟨t1, ht1⟩ := occ1
  obtain ⟨t2, ht2⟩ := occ2
  have hl1 : 2 ≤ (strBytes h1).length := headers_length_ge_two h1 m1
  have hl2 : 1 ≤ (strBytes h2).length := by
    have := headers_length_ge_two h2 m2
    omega
  have g1 : data[k + 1]? = (strBytes h1)[1]? := by
    have hg : (data.drop k)[1]? = (strBytes h1)[1]? := by
      rw [← ht1]
      exact List.getElem?_append_left (by omega)
    rw [List.getElem?_drop] at hg
    exact hg
  have g2 : data[k + 1]? = (strBytes h2)[0]? := by
    have hg : (data.drop (k + 1))[0]? = (strBytes h2)[0]? := by
      rw [← ht2]
      exact List.getElem?_append_left (by omega)
    rw [List.getElem?_drop] at hg
    simpa using hg
  exact headers_second_ne_first h1 m1 h2 m2 (g1 ▸ g2)

/-! ## Helper theorems: the locator positions -/

theorem goEndPosition_le_length (data : List Nat) (h : String)
    (order : List Int) :
    goEndPosition data h order ≤ (data.length : Int) :=
  endPositionFold_le order (startOffset data h) (data.length : Int)

theorem goStartPosition_nonneg (data : List Nat) (h : String)
    (hmem : h ∈ sectionHeaderList) : 0 ≤ goStartPosition data h := by
  unfold goStartPosition
  rw [startOffset_eq_bytesIndex data h hmem]
  have h1 := bytesIndex_ge_neg_one data (strBytes h)
  have h2 := headers_length_ge_two h hmem
  omega

/-- When the requested header is found and some other found offset lies
after it, the loop ends exactly one byte before the nearest following
offset, whatever the map iteration order. -/
theorem goEndPosition_of_next (data : List Nat) (h : String)
    (order : List Int) (hmem : h ∈ sectionHeaderList)
    (hperm : order.Perm (sectionOffsets data)) (k : Nat)
    (hidx : bytesIndex data (strBytes h) = (k : Int)) (m : Int)
    (hm : m ∈ sectionOffsets data) (hkm : (k : Int) < m)
    (hmin : ∀ e ∈ sectionOffsets data, (k : Int) < e → m ≤ e) :
    goEndPosition data h order = m - 1 := by
  have hso : startOffset data h = (k : Int) := by
    rw [startOffset_eq_bytesIndex data h hmem, hidx]
  obtain ⟨h2, hh2, hm2⟩ : ∃ h2 ∈ sectionHeaderList,
      bytesIndex data (strBytes h2) = m := by
    simpa [sectionOffsets] using hm
  obtain ⟨j, hj⟩ : ∃ j : Nat, m = (j : Int) := ⟨m.toNat, by omega⟩
  have hjlen : j < data.length := by
    refine bytesIndex_lt_length data (strBytes h2) j (headers_ne_nil h2 hh2) ?_
    rw [hm2, hj]
  unfold goEndPosition
  rw [hso]
  apply endPositionFold_of_min order (k : Int) m hkm (data.length : Int)
  · exact hperm.mem_iff.mpr hm
  · omega
  · intro e he hke
    exact hmin e (hperm.mem_iff.mp he) hke
  · intro e he heq
    have hee : e ∈ sectionOffsets data := hperm.mem_iff.mp he
    obtain ⟨h3, hh3, he3⟩ : ∃ h3 ∈ sectionHeaderList,
        bytesIndex data (strBytes h3) = e := by
      simpa [sectionOffsets] using hee
    apply no_adjacent_offsets data h2 h3 hh2 hh3 j
    · rw [hm2, hj]
    · rw [he3, heq, hj]
      push_cast
      ring

/-- When no found offset lies after the requested header, the loop leaves
endPosition at the document length, whatever the map iteration order. -/
theorem goEndPosition_of_last (data : List Nat) (h : String)
    (order : List Int) (hmem : h ∈ sectionHeaderList)
    (hperm : order.Perm (sectionOffsets data)) (k : Nat)
    (hidx : bytesIndex data (strBytes h) = (k : Int))
    (hnone : ∀ e ∈ sectionOffsets data, ¬ ((k : Int) < e)) :
    goEndPosition data h order = (data.length : Int) := by
  have hso : startOffset data h = (k : Int) := by
    rw [startOffset_eq_bytesIndex data h hmem, hidx]
  unfold goEndPosition
  rw [hso]
  apply endPositionFold_of_none
  intro e he hc
  exact hnone e (hperm.mem_iff.mp he) hc.1

/-- Replacing a pattern that does not occur is the identity. -/
theorem bytesReplaceOnce_of_no_occurrence (s old : List Nat)
    (h : bytesIndex s old = -1) : bytesReplaceOnce s old = s := by
  unfold bytesReplaceOnce
  cases haux : bytesIndexAux old s 0 with
  | none => rfl
  | some k =>
    unfold bytesIndex at h
    rw [haux] at h
    have h2 : (k : Int) = -1 := h
    omega

/-! ## Helper theorems: assembled documents -/

theorem docOf_append (assign : String → List Nat) (l1 l2 : List String) :
    docOf assign (l1 ++ l2) = docOf assign l1 ++ docOf assign l2 := by
  induction l1 with
  | nil => rfl
  | cons h t ih => simp [docOf, ih]

theorem docOf_cons (assign : String → List Nat) (h : String)
    (t : List String) :
    docOf assign (h :: t) =
      (strBytes h ++ [10]) ++ (assign h ++ docOf assign t) := by
  simp [docOf]

theorem headers_length_ge_seven :
    ∀ h ∈ sectionHeaderList, 7 ≤ (strBytes h).length := by decide

theorem ne_nil_of_getLast_nl (l : List Nat) (hb : l.getLast? = some 10) :
    l ≠ [] := by
  intro hnil
  rw [hnil] at hb
  simp at hb

theorem blockLen_ge_nine (assign : String → List Nat) (h : String)
    (hmem : h ∈ sectionHeaderList) (hb : (assign h).getLast? = some 10) :
    9 ≤ blockLen assign h := by
  have h1 := headers_length_ge_seven h hmem
  have h2 : assign h ≠ [] := ne_nil_of_getLast_nl (assign h) hb
  have h3 : 1 ≤ (assign h).length := List.length_pos.mpr h2
  unfold blockLen
  omega

/-- The header of a block occurs at the start of its block. -/
theorem occursAt_block_start (assign : String → List Nat) (p : List String)
    (h : String) (q : List String) :
    occursAt (docOf assign (p ++ h :: q)) (strBytes h)
      (docOf assign p).length := by
  unfold occursAt
  rw [docOf_append, List.drop_left]
  simp only [docOf]
  exact ⟨10 :: (assign h ++ docOf assign q), rfl⟩

/-- In a valid document, the recorded offset of a header is the start of
its block. -/
theorem offset_of_decomp (assign : String → List Nat) (ord : List String)
    (p : List String) (h : String) (q : List String)
    (hv : ValidDoc assign ord) (hdec : ord = p ++ h :: q)
    (hmem : h ∈ sectionHeaderList) :
    bytesIndex (docOf assign ord) (strBytes h) =
      ((docOf assign p).length : Int) := by
  apply bytesIndex_of_unique _ _ (headers_ne_nil h hmem) (hv.2.2 h hmem)
  rw [hdec]
  exact occursAt_block_start assign p h q

/-- The recorded offset of a header occurring before the distinguished
block ends, with its whole block, at or before the distinguished
block. -/
theorem offset_before (assign : String → List Nat) (ord : List String)
    (p : List String) (h : String) (q : List String)
    (hv : ValidDoc assign ord) (hdec : ord = p ++ h :: q)
    (h3 : String) (hh3 : h3 ∈ p) (hm3 : h3 ∈ sectionHeaderList) :
    bytesIndex (docOf assign ord) (strBytes h3) +
        (blockLen assign h3 : Int) ≤ ((docOf assign p).length : Int) := by
  obtain ⟨p1, p2, hp⟩ := List.append_of_mem hh3
  have hdec3 : ord = p1 ++ h3 :: (p2 ++ h :: q) := by
    rw [hdec, hp]
    simp
  rw [offset_of_decomp assign ord p1 h3 (p2 ++ h :: q) hv hdec3 hm3]
  have hlen : (docOf assign p).length =
      (docOf assign p1).length + blockLen assign h3 +
        (docOf assign p2).length := by
    rw [hp, docOf_append, docOf_cons]
    simp [blockLen]
    omega
  omega

/-- The recorded offset of a header occurring after the distinguished
block lies at or after the end of the distinguished block. -/
theorem offset_after (assign : String → List Nat) (ord : List String)
    (p : List String) (h : String) (q : List String)
    (hv : ValidDoc assign ord) (hdec : ord = p ++ h :: q)
    (h3 : String) (hh3 : h3 ∈ q) (hm3 : h3 ∈ sectionHeaderList) :
    ((docOf assign p).length : Int) + (blockLen assign h : Int) ≤
      bytesIndex (docOf assign ord) (strBytes h3) := by
  obtain ⟨q1, q2, hq⟩ := List.append_of_mem hh3
  have hdec3 : ord = (p ++ h :: q1) ++ h3 :: q2 := by
    rw [hdec, hq]
    simp
  rw [offset_of_decomp assign ord (p ++ h :: q1) h3 q2 hv hdec3 hm3]
  have hlen : (docOf assign (p ++ h :: q1)).length =
      (docOf assign p).length + blockLen assign h +
        (docOf assign q1).length := by
    rw [docOf_append, docOf_cons]
    simp [blockLen]
    omega
  omega

/-- Extraction of one section of a valid document: the result is the
section body, minus its final newline byte when another block follows
(the loop sets endPosition one byte before the next block). -/
theorem extract_block (assign : String → List Nat) (ord : List String)
    (p : List String) (h : String) (q : List String)
    (hv : ValidDoc assign ord) (hdec : ord = p ++ h :: q)
    (hmem : h ∈ sectionHeaderList) (order : List Int)
    (hperm : order.Perm (sectionOffsets (docOf assign ord))) :
    GetSectionContentsOrd (docOf assign ord) h order =
      some (match q with
        | [] => assign h
        | _ :: _ => (assign h).dropLast) := by
  have hb : (assign h).getLast? = some 10 := hv.2.1 h hmem
  have hB : 1 ≤ (assign h).length :=
    List.length_pos.mpr (ne_nil_of_getLast_nl (assign h) hb)
  have hidx : bytesIndex (docOf assign ord) (strBytes h) =
      ((docOf assign p).length : Int) :=
    offset_of_decomp assign ord p h q hv hdec hmem
  have hstart : goStartPosition (docOf assign ord) h =
      ((docOf assign p).length : Int) + ((strBytes h).length : Int) + 1 := by
    unfold goStartPosition
    rw [startOffset_eq_bytesIndex _ h hmem, hidx]
  have hdoc : docOf assign ord =
      (docOf assign p ++ (strBytes h ++ [10])) ++
        (assign h ++ docOf assign q) := by
    rw [hdec, docOf_append, docOf_cons, ← List.append_assoc]
  have hAlen : (docOf assign p ++ (strBytes h ++ [10])).length =
      (docOf assign p).length + (strBytes h).length + 1 := by
    simp [List.length_append]
    omega
  have hmemoff : ∀ e ∈ sectionOffsets (docOf assign ord),
      ∃ h3 ∈ sectionHeaderList,
        bytesIndex (docOf assign ord) (strBytes h3) = e := by
    intro e he
    simpa [sectionOffsets] using he
  have hblock9 : ∀ h3 ∈ sectionHeaderList, 9 ≤ blockLen assign h3 :=
    fun h3 hm3 => blockLen_ge_nine assign h3 hm3 (hv.2.1 h3 hm3)
  cases q with
  | nil =>
    have hnone : ∀ e ∈ sectionOffsets (docOf assign ord),
        ¬ (((docOf assign p).length : Int) < e) := by
      intro e he hlt
      obtain ⟨h3, hm3, he3⟩ := hmemoff e he
      have hord : h3 ∈ ord := hv.1.mem_iff.mpr hm3
      rw [hdec] at hord
      rcases List.mem_append.mp hord with hin | hin
      · have := offset_before assign ord p h [] hv hdec h3 hin hm3
        have h9 := hblock9 h3 hm3
        rw [he3] at this
        omega
      · rcases List.mem_cons.mp hin with rfl | hin2
        · rw [he3] at hidx
          omega
        · cases hin2
    have hend := goEndPosition_of_last (docOf assign ord) h order hmem hperm
      (docOf assign p).length hidx hnone
    have hlen : (docOf assign ord).length =
        (docOf assign p).length + (strBytes h).length + 1 +
          (assign h).length := by
      rw [hdoc]
      simp [List.length_append, docOf]
      omega
    unfold GetSectionContentsOrd
    rw [hstart, hend]
    rw [if_pos ⟨by positivity, by rw [hlen]; push_cast; omega, le_refl _⟩]
    have h1 : (((docOf assign p).length : Int) +
        ((strBytes h).length : Int) + 1).toNat =
        (docOf assign p ++ (strBytes h ++ [10])).length := by
      rw [hAlen]
      omega
    have h2 : (((docOf assign ord).length : Int) -
        (((docOf assign p).length : Int) +
          ((strBytes h).length : Int) + 1)).toNat = (assign h).length := by
      rw [hlen]
      push_cast
      omega
    rw [h2]
    conv_lhs => rw [hdoc]
    rw [h1, List.drop_left]
    simp [docOf, List.take_length]
  | cons hn q2 =>
    have hnshl : hn ∈ sectionHeaderList := by
      apply hv.1.mem_iff.mp
      rw [hdec]
      simp
    have hdec2 : ord = (p ++ [h]) ++ hn :: q2 := by
      rw [hdec]
      simp
    have hPlen : (docOf assign (p ++ [h])).length =
        (docOf assign p).length + blockLen assign h := by
      rw [docOf_append, docOf_cons]
      simp [blockLen, List.length_append, docOf]
      omega
    have hmoff : bytesIndex (docOf assign ord) (strBytes hn) =
        (((docOf assign p).length + blockLen assign h : Nat) : Int) := by
      rw [offset_of_decomp assign ord (p ++ [h]) hn q2 hv hdec2 hnshl, hPlen]
    have hm_mem : (((docOf assign p).length + blockLen assign h : Nat) : Int) ∈
        sectionOffsets (docOf assign ord) := by
      simp only [sectionOffsets, List.mem_map]
      exact ⟨hn, hnshl, hmoff⟩
    have hkm : (((docOf assign p).length : Nat) : Int) <
        (((docOf assign p).length + blockLen assign h : Nat) : Int) := by
      have := hblock9 h hmem
      push_cast
      omega
    have hmin : ∀ e ∈ sectionOffsets (docOf assign ord),
        (((docOf assign p).length : Nat) : Int) < e →
        (((docOf assign p).length + blockLen assign h : Nat) : Int) ≤ e := by
      intro e he hlt
      obtain ⟨h3, hm3, he3⟩ := hmemoff e he
      have hord : h3 ∈ ord := hv.1.mem_iff.mpr hm3
      rw [hdec] at hord
      rcases List.mem_append.mp hord with hin | hin
      · have := offset_before assign ord p h (hn :: q2) hv hdec h3 hin hm3
        have h9 := hblock9 h3 hm3
        rw [he3] at this
        omega
      · rcases List.mem_cons.mp hin with rfl | hin2
        · rw [he3] at hidx
          omega
        · rcases List.mem_cons.mp hin2 with rfl | hin3
          · rw [he3] at hmoff
            omega
          · have := offset_after assign ord (p ++ [h]) hn q2 hv hdec2 h3
              hin3 hm3
            have h9 := hblock9 hn hnshl
            rw [he3, hPlen] at this
            push_cast at this ⊢
            omega
    have hend := goEndPosition_of_next (docOf assign ord) h order hmem hperm
      (docOf assign p).length hidx
      (((docOf assign p).length + blockLen assign h : Nat) : Int)
      hm_mem hkm hmin
    have hbl : blockLen assign h =
        (strBytes h).length + 1 + (assign h).length := rfl
    unfold GetSectionContentsOrd
    rw [hstart, hend]
    have hendle : (((docOf assign p).length + blockLen assign h : Nat) : Int) -
        1 ≤ ((docOf assign ord).length : Int) := by
      have := goEndPosition_le_length (docOf assign ord) h order
      rw [hend] at this
      exact this
    rw [if_pos ⟨by positivity, by rw [hbl]; push_cast; omega, hendle⟩]
    have h1 : (((docOf assign p).length : Int) +
        ((strBytes h).length : Int) + 1).toNat =
        (docOf assign p ++ (strBytes h ++ [10])).length := by
      rw [hAlen]
      omega
    have h2 : ((((docOf assign p).length + blockLen assign h : Nat) : Int) - 1 -
        (((docOf assign p).length : Int) +
          ((strBytes h).length : Int) + 1)).toNat =
        (assign h).length - 1 := by
      rw [hbl]
      push_cast
      omega
    rw [h2]
    conv_lhs => rw [hdoc]
    rw [h1, List.drop_left]
    rw [List.take_append_of_le_length (by omega)]
    rw [← List.dropLast_eq_take]

/-- Visiting an offset above startPosition caps the final endPosition at
that offset. -/
theorem endPositionFold_le_of_mem (l : List Int) (s e : Int) (hse : s < e) :
    ∀ a : Int, e ∈ l → endPositionFold l s a ≤ e := by
  induction l with
  | nil => intro a he; cases he
  | cons x t ih =>
    intro a he
    rw [endPositionFold_cons]
    by_cases hc : s < x ∧ x < a
    · rw [if_pos hc]
      rcases List.mem_cons.mp he with rfl | he2
      · have := endPositionFold_le t s (e - 1)
        omega
      · exact ih (x - 1) he2
    · rw [if_neg hc]
      rcases List.mem_cons.mp he with rfl | he2
      · have hxa : ¬ e < a := fun hlt => hc ⟨hse, hlt⟩
        have := endPositionFold_le t s a
        omega
      · exact ih a he2

/-- In a valid document, a section that precedes another section ends at
or before the other section starts. -/
theorem range_before (assign : String → List Nat) (ord : List String)
    (p : List String) (h : String) (q : List String) (h2 : String)
    (hv : ValidDoc assign ord) (hdec : ord = p ++ h :: q)
    (hmem : h ∈ sectionHeaderList) (hm2 : h2 ∈ sectionHeaderList)
    (hh2 : h2 ∈ q) (order1 : List Int)
    (hperm1 : order1.Perm (sectionOffsets (docOf assign ord))) :
    goEndPosition (docOf assign ord) h order1 ≤
      bytesIndex (docOf assign ord) (strBytes h2) := by
  have hidx : bytesIndex (docOf assign ord) (strBytes h) =
      ((docOf assign p).length : Int) :=
    offset_of_decomp assign ord p h q hv hdec hmem
  have hafter := offset_after assign ord p h q hv hdec h2 hh2 hm2
  have h9 := blockLen_ge_nine assign h hmem (hv.2.1 h hmem)
  have hmemoff : bytesIndex (docOf assign ord) (strBytes h2) ∈
      sectionOffsets (docOf assign ord) := by
    simp only [sectionOffsets, List.mem_map]
    exact ⟨h2, hm2, rfl⟩
  have hso : startOffset (docOf assign ord) h =
      ((docOf assign p).length : Int) := by
    rw [startOffset_eq_bytesIndex _ h hmem, hidx]
  unfold goEndPosition
  rw [hso]
  apply endPositionFold_le_of_mem
  · omega
  · exact hperm1.mem_iff.mpr hmemoff

/-! ## Helper theorems: occurrences inside assembled documents -/

theorem occursAt_getElem (l pat : List Nat) (x j : Nat)
    (hocc : occursAt l pat x) (hj : j < pat.length) :
    l[x + j]? = pat[j]? := by
  unfold occursAt at hocc
  obtain ⟨t, ht⟩ := hocc
  have h1 : (l.drop x)[j]? = pat[j]? := by
    rw [← ht]
    exact List.getElem?_append_left hj
  rw [List.getElem?_drop] at h1
  exact h1

theorem occursAt_append_left (a b pat : List Nat) (x : Nat)
    (hocc : occursAt (a ++ b) pat x) (hx : x + pat.length ≤ a.length) :
    occursAt a pat x := by
  unfold occursAt at hocc ⊢
  rw [List.drop_append_eq_append_drop] at hocc
  have hnil : b.drop (x - a.length) = b := by
    have : x - a.length = 0 := by omega
    rw [this, List.drop_zero]
  rw [hnil] at hocc
  obtain ⟨t, ht⟩ := hocc
  have h2 : (a.drop x ++ b).take pat.length = pat := by
    rw [← ht]
    exact List.take_left pat t
  rw [List.take_append_of_le_length (by simp; omega)] at h2
  rw [← h2]
  exact List.take_prefix _ _

theorem occursAt_append_right (a b pat : List Nat) (x : Nat)
    (hocc : occursAt (a ++ b) pat x) (hx : a.length ≤ x) :
    occursAt b pat (x - a.length) := by
  unfold occursAt at hocc ⊢
  rw [List.drop_append_eq_append_drop] at hocc
  have hnil : a.drop x = [] := List.drop_eq_nil_of_le hx
  rw [hnil, List.nil_append] at hocc
  exact hocc

theorem headers_no_newline :
    ∀ h ∈ sectionHeaderList, ¬ (10 ∈ strBytes h) := by decide

theorem headers_length_le_nineteen :
    ∀ h ∈ sectionHeaderList, (strBytes h).length ≤ 19 := by decide

/-- No registered header occurs inside another registered header except
as the whole header itself at offset zero. -/
theorem headers_not_inside :
    ∀ h ∈ sectionHeaderList, ∀ h2 ∈ sectionHeaderList, ∀ i < 20,
      occursAt (strBytes h2) (strBytes h) i → h = h2 ∧ i = 0 := by decide

theorem sectionHeaderList_nodup : sectionHeaderList.Nodup := by decide

/-- In an assembled document whose bodies end with a newline and contain
no registered header, every occurrence of a registered header is at the
start of a block introducing that header. -/
theorem occurrence_block_start (assign : String → List Nat) :
    ∀ ord : List String,
      (∀ h2 ∈ ord, h2 ∈ sectionHeaderList) →
      (∀ h2 ∈ ord, (assign h2).getLast? = some 10) →
      (∀ h2 ∈ ord, ∀ H ∈ sectionHeaderList,
        bytesIndex (assign h2) (strBytes H) = -1) →
      ∀ H ∈ sectionHeaderList, ∀ x : Nat,
        occursAt (docOf assign ord) (strBytes H) x →
        ∃ p q, ord = p ++ H :: q ∧ x = (docOf assign p).length := by
  intro ord
  induction ord with
  | nil =>
    intro _ _ _ H hH x hocc
    exfalso
    unfold occursAt docOf at hocc
    rw [List.drop_nil] at hocc
    exact headers_ne_nil H hH (List.prefix_nil.mp hocc)
  | cons h t ih =>
    intro hsub hnl hclean H hH x hocc
    have hhm : h ∈ sectionHeaderList := hsub h (List.mem_cons_self h t)
    have hdoc := docOf_cons assign h t
    rw [hdoc] at hocc
    have hL19 : (strBytes h).length ≤ 19 := headers_length_le_nineteen h hhm
    have hH2 : 2 ≤ (strBytes H).length := headers_length_ge_two H hH
    by_cases hx1 : x + (strBytes H).length ≤ (strBytes h).length
    · have hre : (strBytes h ++ [10]) ++ (assign h ++ docOf assign t) =
          strBytes h ++ ([10] ++ (assign h ++ docOf assign t)) := by
        rw [List.append_assoc]
      rw [hre] at hocc
      have hocc2 : occursAt (strBytes h) (strBytes H) x :=
        occursAt_append_left _ _ _ _ hocc hx1
      obtain ⟨rfl, rfl⟩ :=
        headers_not_inside H hH h hhm x (by omega) hocc2
      exact ⟨[], t, rfl, by simp [docOf]⟩
    · by_cases hx2 : x ≤ (strBytes h).length
      · exfalso
        have hj : (strBytes h).length - x < (strBytes H).length := by omega
        have hget := occursAt_getElem _ _ x ((strBytes h).length - x) hocc hj
        have hxl : x + ((strBytes h).length - x) = (strBytes h).length := by
          omega
        rw [hxl] at hget
        have hdocL : ((strBytes h ++ [10]) ++
            (assign h ++ docOf assign t))[(strBytes h).length]? = some 10 := by
          rw [List.getElem?_append_left (by simp)]
          exact List.getElem?_concat_length (strBytes h) 10
        rw [hdocL] at hget
        obtain ⟨hlt, hval⟩ := List.getElem?_eq_some.mp hget.symm
        exact headers_no_newline H hH (hval ▸ List.getElem_mem hlt)
      · have hxge : (strBytes h ++ [10]).length ≤ x := by
          simp
          omega
        have hocc2 := occursAt_append_right _ _ _ x hocc hxge
        have hAlen : (strBytes h ++ [10]).length = (strBytes h).length + 1 := by
          simp
        rw [hAlen] at hocc2
        have hBpos : 1 ≤ (assign h).length :=
          List.length_pos.mpr
            (ne_nil_of_getLast_nl (assign h) (hnl h (List.mem_cons_self h t)))
        by_cases hy1 : (x - ((strBytes h).length + 1)) + (strBytes H).length ≤
            (assign h).length
        · exfalso
          have hocc3 := occursAt_append_left _ _ _ _ hocc2 hy1
          exact bytesIndex_neg_spec (assign h) (strBytes H)
            (hclean h (List.mem_cons_self h t) H hH) _ hocc3
        · by_cases hy2 : x - ((strBytes h).length + 1) < (assign h).length
          · exfalso
            have hj : (assign h).length - 1 - (x - ((strBytes h).length + 1)) <
                (strBytes H).length := by omega
            have hget := occursAt_getElem _ _ _ _ hocc2 hj
            have hpos : (x - ((strBytes h).length + 1)) +
                ((assign h).length - 1 - (x - ((strBytes h).length + 1))) =
                (assign h).length - 1 := by omega
            rw [hpos] at hget
            have hlast : (assign h ++
                docOf assign t)[(assign h).length - 1]? = some 10 := by
              rw [List.getElem?_append_left (by omega)]
              rw [← List.getLast?_eq_getElem?]
              exact hnl h (List.mem_cons_self h t)
            rw [hlast] at hget
            obtain ⟨hlt, hval⟩ := List.getElem?_eq_some.mp hget.symm
            exact headers_no_newline H hH (hval ▸ List.getElem_mem hlt)
          · have hyB : (assign h).length ≤ x - ((strBytes h).length + 1) := by
              omega
            have hocc3 := occursAt_append_right _ _ _ _ hocc2 hyB
            obtain ⟨p, q, hdect, hposx⟩ := ih
              (fun z hz => hsub z (List.mem_cons_of_mem h hz))
              (fun z hz => hnl z (List.mem_cons_of_mem h hz))
              (fun z hz => hclean z (List.mem_cons_of_mem h hz))
              H hH _ hocc3
            refine ⟨h :: p, q, by simp [hdect], ?_⟩
            have hlen : (docOf assign (h :: p)).length =
                (strBytes h).length + 1 + (assign h).length +
                  (docOf assign p).length := by
              simp [docOf, List.length_append]
              omega
            omega

/-- A nodup list with a member to which all members are equal is the
singleton of that member. -/
theorem eq_singleton_of_unique (l : List Nat) (a : Nat) (hnd : l.Nodup)
    (ha : a ∈ l) (hall : ∀ x ∈ l, x = a) : l = [a] := by
  cases l with
  | nil => cases ha
  | cons b t =>
    have hb : b = a := hall b (List.mem_cons_self b t)
    subst hb
    cases t with
    | nil => rfl
    | cons c r =>
      have hc : c = b := hall c (by simp)
      subst hc
      simp at hnd

/-- A pattern with a unique occurrence position has occurrence count
one. -/
theorem countOcc_eq_one_of_unique (data pat : List Nat) (hpat : pat ≠ [])
    (s : Nat) (hs : occursAt data pat s)
    (huniq : ∀ x : Nat, occursAt data pat x → x = s) :
    countOcc data pat = 1 := by
  unfold countOcc
  have heq : (List.range (data.length + 1)).filter
      (fun i => decide (occursAt data pat i)) = [s] := by
    apply eq_singleton_of_unique
    · exact ((List.nodup_range _).filter _)
    · refine List.mem_filter.mpr ⟨List.mem_range.mpr ?_, by simpa using hs⟩
      have := occursAt_lt_length data pat s hpat hs
      omega
    · intro x hx
      have := (List.mem_filter.mp hx).2
      exact huniq x (by simpa using this)
  rw [heq]
  rfl

/-- Decompositions of a nodup list at the same element coincide. -/
theorem nodup_decomp_unique (H : String) :
    ∀ (p p' q q' : List String), (p ++ H :: q).Nodup →
      p ++ H :: q = p' ++ H :: q' → p = p' := by
  intro p
  induction p with
  | nil =>
    intro p' q q' hnd heq
    cases p' with
    | nil => rfl
    | cons b t =>
      exfalso
      rw [List.nil_append, List.cons_append] at heq
      have hb : H = b := by
        have := congrArg (fun l => List.head? l) heq
        simpa using this
      subst hb
      have htail : q = t ++ H :: q' := by
        have := congrArg (fun l => List.tail l) heq
        simpa using this
      rw [List.nil_append, htail] at hnd
      have hmm2 : H ∈ t ++ H :: q' := by simp
      exact (List.nodup_cons.mp hnd).1 hmm2
  | cons a p ih =>
    intro p' q q' hnd heq
    cases p' with
    | nil =>
      exfalso
      rw [List.nil_append, List.cons_append] at heq
      have hb : a = H := by
        have := congrArg (fun l => List.head? l) heq
        simpa using this
      subst hb
      rw [List.cons_append] at hnd
      have hmm2 : a ∈ p ++ a :: q := by simp
      exact (List.nodup_cons.mp hnd).1 hmm2
    | cons b t =>
      rw [List.cons_append, List.cons_append] at heq
      have hb : a = b := by
        have := congrArg (fun l => List.head? l) heq
        simpa using this
      subst hb
      have htail : p ++ H :: q = t ++ H :: q' := by
        have := congrArg (fun l => List.tail l) heq
        simpa using this
      rw [List.cons_append] at hnd
      have hnd2 : (p ++ H :: q).Nodup := hnd.of_cons
      rw [ih t q q' hnd2 htail]

/-- Structural validity: if the ordering is a permutation of the
registered headers, every body ends with a newline and no body contains
any registered header, then the assembled document is valid. -/
theorem validDoc_structural (assign : String → List Nat) (ord : List String)
    (hperm : ord.Perm sectionHeaderList)
    (hnl : ∀ h ∈ sectionHeaderList, (assign h).getLast? = some 10)
    (hclean : ∀ h ∈ sectionHeaderList, ∀ H ∈ sectionHeaderList,
      bytesIndex (assign h) (strBytes H) = -1) :
    ValidDoc assign ord := by
  refine ⟨hperm, hnl, ?_⟩
  intro H hH
  have hHord : H ∈ ord := hperm.mem_iff.mpr hH
  obtain ⟨p, q, hdec⟩ := List.append_of_mem hHord
  apply countOcc_eq_one_of_unique _ _ (headers_ne_nil H hH)
    ((docOf assign p).length)
  · rw [hdec]
    exact occursAt_block_start assign p H q
  · intro x hx
    obtain ⟨p', q', hdec', hx'⟩ := occurrence_block_start assign ord
      (fun z hz => hperm.mem_iff.mp hz)
      (fun z hz => hnl z (hperm.mem_iff.mp hz))
      (fun z hz => hclean z (hperm.mem_iff.mp hz))
      H hH x hx
    have hnd : ord.Nodup := hperm.nodup_iff.mpr sectionHeaderList_nodup
    have hpp : p = p' := by
      apply nodup_decomp_unique H p p' q q'
      · rw [← hdec]
        exact hnd
      · rw [← hdec, ← hdec']
    rw [hx', hpp]

/-! ## Claim C2: section ranges of a well-formed document -/

/-- C2: in a valid document (six sections in some order, each header
occurring exactly once on its own line), the byte ranges computed for two
distinct sections never overlap, and no range reaches back into the
header line that introduces its section; this holds for any pair of map
iteration orders. -/
theorem C2_ranges_disjoint (assign : String → List Nat) (ord : List String)
    (hv : ValidDoc assign ord) (h1 h2 : String)
    (hm1 : h1 ∈ sectionHeaderList) (hm2 : h2 ∈ sectionHeaderList)
    (order1 order2 : List Int)
    (ho1 : order1.Perm (sectionOffsets (docOf assign ord)))
    (ho2 : order2.Perm (sectionOffsets (docOf assign ord))) :
    (h1 ≠ h2 → ∀ x : Int,
      ¬ (goStartPosition (docOf assign ord) h1 ≤ x ∧
         x < goEndPosition (docOf assign ord) h1 order1 ∧
         goStartPosition (docOf assign ord) h2 ≤ x ∧
         x < goEndPosition (docOf assign ord) h2 order2)) ∧
    (∀ x : Int,
      bytesIndex (docOf assign ord) (strBytes h1) ≤ x ∧
      x < goStartPosition (docOf assign ord) h1 →
      ¬ (goStartPosition (docOf assign ord) h1 ≤ x ∧
         x < goEndPosition (docOf assign ord) h1 order1)) := by
  constructor
  · intro hne x hx
    obtain ⟨hs1x, hx1e, hs2x, hx2e⟩ := hx
    have hstart1 : goStartPosition (docOf assign ord) h1 =
        bytesIndex (docOf assign ord) (strBytes h1) +
          ((strBytes h1).length : Int) + 1 := by
      unfold goStartPosition
      rw [startOffset_eq_bytesIndex _ h1 hm1]
    have hstart2 : goStartPosition (docOf assign ord) h2 =
        bytesIndex (docOf assign ord) (strBytes h2) +
          ((strBytes h2).length : Int) + 1 := by
      unfold goStartPosition
      rw [startOffset_eq_bytesIndex _ h2 hm2]
    have hord1 : h1 ∈ ord := hv.1.mem_iff.mpr hm1
    obtain ⟨p1, q1, hdec1⟩ := List.append_of_mem hord1
    have hord2 : h2 ∈ ord := by
      apply hv.1.mem_iff.mpr hm2
    rw [hdec1] at hord2
    rcases List.mem_append.mp hord2 with hin | hin
    · obtain ⟨p2, r, hp⟩ := List.append_of_mem hin
      have hdec2 : ord = p2 ++ h2 :: (r ++ h1 :: q1) := by
        rw [hdec1, hp]
        simp
      have hx1in : h1 ∈ r ++ h1 :: q1 := by simp
      have hle := range_before assign ord p2 h2 (r ++ h1 :: q1) h1 hv hdec2
        hm2 hm1 hx1in order2 ho2
      have hl1 := headers_length_ge_two h1 hm1
      omega
    · rcases List.mem_cons.mp hin with rfl | hin2
      · exact hne rfl
      · have hle := range_before assign ord p1 h1 q1 h2 hv hdec1 hm1 hm2
          hin2 order1 ho1
        have hl2 := headers_length_ge_two h2 hm2
        omega
  · intro x hx hx2
    omega

/-- Body assignment used by concrete well-formed documents: every section
body is a single short line. -/
def assignW : String → List Nat := fun _ => strBytes "a\n"

/-- C2 witness: the disjointness statement at a concrete valid document,
for the sections VEHICLE and FUEL RECORDS. -/
theorem C2_ranges_disjoint_witness :
    (("VEHICLE" : String) ≠ "FUEL RECORDS" → ∀ x : Int,
      ¬ (goStartPosition (docOf assignW sectionHeaderList) "VEHICLE" ≤ x ∧
         x < goEndPosition (docOf assignW sectionHeaderList) "VEHICLE"
           (sectionOffsets (docOf assignW sectionHeaderList)) ∧
         goStartPosition (docOf assignW sectionHeaderList) "FUEL RECORDS" ≤ x ∧
         x < goEndPosition (docOf assignW sectionHeaderList) "FUEL RECORDS"
           (sectionOffsets (docOf assignW sectionHeaderList)))) ∧
    (∀ x : Int,
      bytesIndex (docOf assignW sectionHeaderList) (strBytes "VEHICLE") ≤ x ∧
      x < goStartPosition (docOf assignW sectionHeaderList) "VEHICLE" →
      ¬ (goStartPosition (docOf assignW sectionHeaderList) "VEHICLE" ≤ x ∧
         x < goEndPosition (docOf assignW sectionHeaderList) "VEHICLE"
           (sectionOffsets (docOf assignW sectionHeaderList)))) :=
  C2_ranges_disjoint assignW sectionHeaderList
    ⟨List.Perm.refl _, by decide, by decide⟩ "VEHICLE" "FUEL RECORDS"
    (by decide) (by decide) (sectionOffsets (docOf assignW sectionHeaderList))
    (sectionOffsets (docOf assignW sectionHeaderList)) (List.Perm.refl _)
    (List.Perm.refl _)

/-! ## Helper theorems: CSV rows and the decode pipeline -/

theorem splitOnByte_ne_nil (b : Nat) (l : List Nat) : splitOnByte b l ≠ [] := by
  cases l with
  | nil => simp [splitOnByte]
  | cons c t =>
    unfold splitOnByte
    by_cases hc : c = b
    · rw [if_pos hc]
      simp
    · rw [if_neg hc]
      cases h : splitOnByte b t with
      | nil => simp
      | cons r rs => simp

theorem splitOnByte_concat_sep (b : Nat) (xs : List Nat) :
    splitOnByte b (xs ++ [b]) = splitOnByte b xs ++ [[]] := by
  induction xs with
  | nil => simp [splitOnByte]
  | cons c t ih =>
    rw [List.cons_append]
    unfold splitOnByte
    by_cases hc : c = b
    · rw [if_pos hc, if_pos hc, ih]
      rfl
    · rw [if_neg hc, if_neg hc, ih]
      cases h : splitOnByte b t with
      | nil => exact absurd h (splitOnByte_ne_nil b t)
      | cons r rs => simp

/-- A trailing line terminator adds no CSV row. -/
theorem csvRows_concat_nl (xs : List Nat) :
    csvRows (xs ++ [10]) = csvRows xs := by
  unfold csvRows
  rw [splitOnByte_concat_sep, List.filter_append]
  simp

/-- Dropping the final newline byte of a body leaves its CSV rows
unchanged. -/
theorem csvRows_dropLast (bdy : List Nat) (hb : bdy.getLast? = some 10) :
    csvRows bdy.dropLast = csvRows bdy := by
  have h10 : (10 : Nat) ∈ bdy.getLast? := by
    rw [hb]
    rfl
  have hsplit : bdy.dropLast ++ [10] = bdy :=
    List.dropLast_append_getLast? 10 h10
  conv_rhs => rw [← hsplit]
  rw [csvRows_concat_nl]

theorem decodeSection_dropLast (shape : List Field) (bdy : List Nat)
    (hb : bdy.getLast? = some 10) :
    decodeSection shape bdy.dropLast = decodeSection shape bdy := by
  unfold decodeSection
  rw [csvRows_dropLast bdy hb]

/-- On a valid document, UnmarshalRoadtripSection decodes exactly the
body assigned to the section. -/
theorem unmarshal_section_valid (assign : String → List Nat)
    (ord : List String) (hv : ValidDoc assign ord) (h : String)
    (hmem : h ∈ sectionHeaderList) (shape : List Field) :
    UnmarshalRoadtripSection (docOf assign ord) shape h =
      some (decodeSection shape (assign h)) := by
  have hord : h ∈ ord := hv.1.mem_iff.mpr hmem
  obtain ⟨p, q, hdec⟩ := List.append_of_mem hord
  have hx := extract_block assign ord p h q hv hdec hmem
    (sectionOffsets (docOf assign ord)) (List.Perm.refl _)
  unfold UnmarshalRoadtripSection GetSectionContents
  rw [hx]
  cases q with
  | nil => rfl
  | cons hn q2 =>
    have hred : Option.map (decodeSection shape) (some ((assign h).dropLast)) =
        some (decodeSection shape ((assign h).dropLast)) := rfl
    rw [hred, decodeSection_dropLast shape (assign h) (hv.2.1 h hmem)]

/-- UnmarshalRoadtrip expressed through the six section outcomes. -/
theorem unmarshalRoadtrip_eq_assemble (v : Vehicle) (data : List Nat)
    (r1 r2 r3 r4 r5 r6 : Except DecodeError (List CsvRecord))
    (h1 : UnmarshalRoadtripSection data vehicleShape "VEHICLE" = some r1)
    (h2 : UnmarshalRoadtripSection data fuelShape "FUEL RECORDS" = some r2)
    (h3 : UnmarshalRoadtripSection data maintenanceShape
      "MAINTENANCE RECORDS" = some r3)
    (h4 : UnmarshalRoadtripSection data tripShape "ROAD TRIPS" = some r4)
    (h5 : UnmarshalRoadtripSection data tireShape "TIRE LOG" = some r5)
    (h6 : UnmarshalRoadtripSection data valuationShape "VALUATIONS" = some r6) :
    UnmarshalRoadtrip v data =
      some (assembleResult v data r1 r2 r3 r4 r5 r6) := by
  unfold UnmarshalRoadtrip assembleResult
  rw [h1, h2, h3, h4, h5, h6]
  cases r1 <;> cases r2 <;> cases r3 <;> cases r4 <;> cases r5 <;>
    cases r6 <;> rfl

/-- The assembled result does not depend on the raw data once the Raw
field is cleared. -/
theorem assemble_eraseRaw (v : Vehicle) (d1 d2 : List Nat)
    (r1 r2 r3 r4 r5 r6 : Except DecodeError (List CsvRecord)) :
    Except.map eraseRaw (assembleResult v d1 r1 r2 r3 r4 r5 r6) =
      Except.map eraseRaw (assembleResult v d2 r1 r2 r3 r4 r5 r6) := by
  cases r1 <;> cases r2 <;> cases r3 <;> cases r4 <;> cases r5 <;>
    cases r6 <;> rfl

/-! ## Claim C6: order-independence of the parse result -/

/-- C6 (amended): re-ordering the six sections of a valid document gives
the same load outcome up to the retained Raw field: the same error on
failure, and on success identical Vehicles, FuelRecords,
MaintenanceRecords, Trips, Tires, Valuations and all other fields except
Raw, which keeps the input bytes and therefore differs between the
orderings. -/
theorem C6_order_independence (assign : String → List Nat)
    (ord1 ord2 : List String) (v : Vehicle)
    (hv1 : ValidDoc assign ord1) (hv2 : ValidDoc assign ord2) :
    (UnmarshalRoadtrip v (docOf assign ord1)).map (Except.map eraseRaw) =
      (UnmarshalRoadtrip v (docOf assign ord2)).map (Except.map eraseRaw) := by
  rw [unmarshalRoadtrip_eq_assemble v (docOf assign ord1)
      (decodeSection vehicleShape (assign "VEHICLE"))
      (decodeSection fuelShape (assign "FUEL RECORDS"))
      (decodeSection maintenanceShape (assign "MAINTENANCE RECORDS"))
      (decodeSection tripShape (assign "ROAD TRIPS"))
      (decodeSection tireShape (assign "TIRE LOG"))
      (decodeSection valuationShape (assign "VALUATIONS"))
      (unmarshal_section_valid assign ord1 hv1 "VEHICLE" (by decide) _)
      (unmarshal_section_valid assign ord1 hv1 "FUEL RECORDS" (by decide) _)
      (unmarshal_section_valid assign ord1 hv1 "MAINTENANCE RECORDS"
        (by decide) _)
      (unmarshal_section_valid assign ord1 hv1 "ROAD TRIPS" (by decide) _)
      (unmarshal_section_valid assign ord1 hv1 "TIRE LOG" (by decide) _)
      (unmarshal_section_valid assign ord1 hv1 "VALUATIONS" (by decide) _)]
  rw [unmarshalRoadtrip_eq_assemble v (docOf assign ord2)
      (decodeSection vehicleShape (assign "VEHICLE"))
      (decodeSection fuelShape (assign "FUEL RECORDS"))
      (decodeSection maintenanceShape (assign "MAINTENANCE RECORDS"))
      (decodeSection tripShape (assign "ROAD TRIPS"))
      (decodeSection tireShape (assign "TIRE LOG"))
      (decodeSection valuationShape (assign "VALUATIONS"))
      (unmarshal_section_valid assign ord2 hv2 "VEHICLE" (by decide) _)
      (unmarshal_section_valid assign ord2 hv2 "FUEL RECORDS" (by decide) _)
      (unmarshal_section_valid assign ord2 hv2 "MAINTENANCE RECORDS"
        (by decide) _)
      (unmarshal_section_valid assign ord2 hv2 "ROAD TRIPS" (by decide) _)
      (unmarshal_section_valid assign ord2 hv2 "TIRE LOG" (by decide) _)
      (unmarshal_section_valid assign ord2 hv2 "VALUATIONS" (by decide) _)]
  exact congrArg some (assemble_eraseRaw v (docOf assign ord1)
    (docOf assign ord2) _ _ _ _ _ _)

/-! ## Concrete valid documents and their load results -/

theorem assignFull_valid_shl : ValidDoc assignFull sectionHeaderList :=
  validDoc_structural assignFull sectionHeaderList (List.Perm.refl _)
    (by decide) (by decide)

theorem assignFull_valid_rev : ValidDoc assignFull revOrd :=
  validDoc_structural assignFull revOrd
    (by unfold revOrd; exact List.reverse_perm _) (by decide) (by decide)

theorem decode_full_vehicle :
    decodeSection vehicleShape (assignFull "VEHICLE") = .ok [] := by decide

theorem decode_full_fuel :
    decodeSection fuelShape (assignFull "FUEL RECORDS") = .ok [] := by decide

theorem decode_full_maintenance :
    decodeSection maintenanceShape (assignFull "MAINTENANCE RECORDS") =
      .ok [] := by decide

theorem decode_full_trip :
    decodeSection tripShape (assignFull "ROAD TRIPS") = .ok [] := by decide

theorem decode_full_tire :
    decodeSection tireShape (assignFull "TIRE LOG") = .ok [] := by decide

theorem decode_full_valuation :
    decodeSection valuationShape (assignFull "VALUATIONS") = .ok [] := by
  decide

/-- Loading the full-header document in registration order succeeds with
six empty collections. -/
theorem unmarshal_full_shl (v : Vehicle) :
    UnmarshalRoadtrip v (docOf assignFull sectionHeaderList) =
      some (.ok (emptyLoaded v (docOf assignFull sectionHeaderList))) := by
  rw [unmarshalRoadtrip_eq_assemble v (docOf assignFull sectionHeaderList)
      (decodeSection vehicleShape (assignFull "VEHICLE"))
      (decodeSection fuelShape (assignFull "FUEL RECORDS"))
      (decodeSection maintenanceShape (assignFull "MAINTENANCE RECORDS"))
      (decodeSection tripShape (assignFull "ROAD TRIPS"))
      (decodeSection tireShape (assignFull "TIRE LOG"))
      (decodeSection valuationShape (assignFull "VALUATIONS"))
      (unmarshal_section_valid assignFull sectionHeaderList
        assignFull_valid_shl "VEHICLE" (by decide) _)
      (unmarshal_section_valid assignFull sectionHeaderList
        assignFull_valid_shl "FUEL RECORDS" (by decide) _)
      (unmarshal_section_valid assignFull sectionHeaderList
        assignFull_valid_shl "MAINTENANCE RECORDS" (by decide) _)
      (unmarshal_section_valid assignFull sectionHeaderList
        assignFull_valid_shl "ROAD TRIPS" (by decide) _)
      (unmarshal_section_valid assignFull sectionHeaderList
        assignFull_valid_shl "TIRE LOG" (by decide) _)
      (unmarshal_section_valid assignFull sectionHeaderList
        assignFull_valid_shl "VALUATIONS" (by decide) _)]
  rw [decode_full_vehicle, decode_full_fuel, decode_full_maintenance,
    decode_full_trip, decode_full_tire, decode_full_valuation]
  rfl

/-- Loading the full-header document in reversed order succeeds with six
empty collections. -/
theorem unmarshal_full_rev (v : Vehicle) :
    UnmarshalRoadtrip v (docOf assignFull revOrd) =
      some (.ok (emptyLoaded v (docOf assignFull revOrd))) := by
  rw [unmarshalRoadtrip_eq_assemble v (docOf assignFull revOrd)
      (decodeSection vehicleShape (assignFull "VEHICLE"))
      (decodeSection fuelShape (assignFull "FUEL RECORDS"))
      (decodeSection maintenanceShape (assignFull "MAINTENANCE RECORDS"))
      (decodeSection tripShape (assignFull "ROAD TRIPS"))
      (decodeSection tireShape (assignFull "TIRE LOG"))
      (decodeSection valuationShape (assignFull "VALUATIONS"))
      (unmarshal_section_valid assignFull revOrd
        assignFull_valid_rev "VEHICLE" (by decide) _)
      (unmarshal_section_valid assignFull revOrd
        assignFull_valid_rev "FUEL RECORDS" (by decide) _)
      (unmarshal_section_valid assignFull revOrd
        assignFull_valid_rev "MAINTENANCE RECORDS" (by decide) _)
      (unmarshal_section_valid assignFull revOrd
        assignFull_valid_rev "ROAD TRIPS" (by decide) _)
      (unmarshal_section_valid assignFull revOrd
        assignFull_valid_rev "TIRE LOG" (by decide) _)
      (unmarshal_section_valid assignFull revOrd
        assignFull_valid_rev "VALUATIONS" (by decide) _)]
  rw [decode_full_vehicle, decode_full_fuel, decode_full_maintenance,
    decode_full_trip, decode_full_tire, decode_full_valuation]
  rfl

/-- C6 (counterexample): two valid documents with the same six section
blocks in two different orders both load successfully and agree on all
collections, but the ParseResult values are NOT identical: the Raw field
retains the input bytes, which differ between the orderings. -/
theorem C6_raw_differs :
    ValidDoc assignFull sectionHeaderList ∧ ValidDoc assignFull revOrd ∧
    loadOk (UnmarshalRoadtrip NewVehicle
      (docOf assignFull sectionHeaderList)) = true ∧
    loadOk (UnmarshalRoadtrip NewVehicle (docOf assignFull revOrd)) = true ∧
    (UnmarshalRoadtrip NewVehicle (docOf assignFull sectionHeaderList)).map
        (Except.map eraseRaw) =
      (UnmarshalRoadtrip NewVehicle (docOf assignFull revOrd)).map
        (Except.map eraseRaw) ∧
    UnmarshalRoadtrip NewVehicle (docOf assignFull sectionHeaderList) ≠
      UnmarshalRoadtrip NewVehicle (docOf assignFull revOrd) := by
  refine ⟨assignFull_valid_shl, assignFull_valid_rev, ?_, ?_, ?_, ?_⟩
  · rw [unmarshal_full_shl]
    rfl
  · rw [unmarshal_full_rev]
    rfl
  · rw [unmarshal_full_shl, unmarshal_full_rev]
    rfl
  · rw [unmarshal_full_shl, unmarshal_full_rev]
    intro heq
    simp only [Option.some.injEq, Except.ok.injEq] at heq
    have hraw := congrArg Vehicle.Raw heq
    simp only [emptyLoaded] at hraw
    have hne : docOf assignFull sectionHeaderList ≠ docOf assignFull revOrd :=
      by decide
    exact hne hraw

/-- C6 witness: the amended order-independence at the two concrete valid
documents. -/
theorem C6_order_independence_witness :
    (UnmarshalRoadtrip NewVehicle (docOf assignFull sectionHeaderList)).map
        (Except.map eraseRaw) =
      (UnmarshalRoadtrip NewVehicle (docOf assignFull revOrd)).map
        (Except.map eraseRaw) :=
  C6_order_independence assignFull sectionHeaderList revOrd NewVehicle
    assignFull_valid_shl assignFull_valid_rev

/-! ## Claim C3: error propagation of UnmarshalRoadtrip -/

/-- C3 (amended): the load is all-or-nothing: if every section decodes,
UnmarshalRoadtrip succeeds; if any section fails, it returns the first
failing section decode error wrapped in the fixed context string (the
words unable to parse followed by the rendering of the still-empty target
collection), which is the same for every section and therefore does not
name the failing section. -/
theorem C3_error_propagation (v : Vehicle) (data : List Nat)
    (hempty : v.Vehicles = [] ∧ v.FuelRecords = [] ∧
      v.MaintenanceRecords = [] ∧ v.Trips = [] ∧ v.Tires = [] ∧
      v.Valuations = [])
    (r1 r2 r3 r4 r5 r6 : Except DecodeError (List CsvRecord))
    (h1 : UnmarshalRoadtripSection data vehicleShape "VEHICLE" = some r1)
    (h2 : UnmarshalRoadtripSection data fuelShape "FUEL RECORDS" = some r2)
    (h3 : UnmarshalRoadtripSection data maintenanceShape
      "MAINTENANCE RECORDS" = some r3)
    (h4 : UnmarshalRoadtripSection data tripShape "ROAD TRIPS" = some r4)
    (h5 : UnmarshalRoadtripSection data tireShape "TIRE LOG" = some r5)
    (h6 : UnmarshalRoadtripSection data valuationShape "VALUATIONS" =
      some r6) :
    (UnmarshalRoadtrip v data =
      some (assembleResult v data r1 r2 r3 r4 r5 r6)) ∧
    (∀ ge : GoError, assembleResult v data r1 r2 r3 r4 r5 r6 = .error ge →
      ∃ e : DecodeError,
        ge = .wrapped "unable to parse &[]" (.decode e) ∧
        (r1 = .error e ∨ r2 = .error e ∨ r3 = .error e ∨ r4 = .error e ∨
         r5 = .error e ∨ r6 = .error e)) ∧
    ((∃ c1, r1 = .ok c1) → (∃ c2, r2 = .ok c2) → (∃ c3, r3 = .ok c3) →
     (∃ c4, r4 = .ok c4) → (∃ c5, r5 = .ok c5) → (∃ c6, r6 = .ok c6) →
      ∃ v', UnmarshalRoadtrip v data = some (.ok v')) := by
  obtain ⟨he1, he2, he3, he4, he5, he6⟩ := hempty
  have hstr : "unable to parse " ++ goFormatRecords [] =
      "unable to parse &[]" := by decide
  refine ⟨unmarshalRoadtrip_eq_assemble v data r1 r2 r3 r4 r5 r6
    h1 h2 h3 h4 h5 h6, ?_, ?_⟩
  · intro ge hge
    cases r1 with
    | error e =>
      refine ⟨e, ?_, Or.inl rfl⟩
      simp only [assembleResult, wrapParse] at hge
      injection hge with hh
      rw [← hh, he1, hstr]
    | ok c1 =>
      cases r2 with
      | error e =>
        refine ⟨e, ?_, Or.inr (Or.inl rfl)⟩
        simp only [assembleResult, wrapParse] at hge
        injection hge with hh
        rw [← hh, he2, hstr]
      | ok c2 =>
        cases r3 with
        | error e =>
          refine ⟨e, ?_, Or.inr (Or.inr (Or.inl rfl))⟩
          simp only [assembleResult, wrapParse] at hge
          injection hge with hh
          rw [← hh, he3, hstr]
        | ok c3 =>
          cases r4 with
          | error e =>
            refine ⟨e, ?_, Or.inr (Or.inr (Or.inr (Or.inl rfl)))⟩
            simp only [assembleResult, wrapParse] at hge
            injection hge with hh
            rw [← hh, he4, hstr]
          | ok c4 =>
            cases r5 with
            | error e =>
              refine ⟨e, ?_, Or.inr (Or.inr (Or.inr (Or.inr (Or.inl rfl))))⟩
              simp only [assembleResult, wrapParse] at hge
              injection hge with hh
              rw [← hh, he5, hstr]
            | ok c5 =>
              cases r6 with
              | error e =>
                refine ⟨e, ?_,
                  Or.inr (Or.inr (Or.inr (Or.inr (Or.inr rfl))))⟩
                simp only [assembleResult, wrapParse] at hge
                injection hge with hh
                rw [← hh, he6, hstr]
              | ok c6 =>
                exfalso
                simp only [assembleResult] at hge
                cases hge
  · rintro ⟨c1, rfl⟩ ⟨c2, rfl⟩ ⟨c3, rfl⟩ ⟨c4, rfl⟩ ⟨c5, rfl⟩ ⟨c6, rfl⟩
    refine ⟨{ v with
      Raw := data
      Vehicles := c1
      FuelRecords := c2
      MaintenanceRecords := c3
      Trips := c4
      Tires := c5
      Valuations := c6 }, ?_⟩
    rw [unmarshalRoadtrip_eq_assemble v data _ _ _ _ _ _ h1 h2 h3 h4 h5 h6]
    rfl

/-! ## Concrete failing-load documents for C3 -/

theorem assignNoFuelNote_valid : ValidDoc assignNoFuelNote sectionHeaderList :=
  validDoc_structural assignNoFuelNote sectionHeaderList (List.Perm.refl _)
    (by decide) (by decide)

theorem assignNoTireNote_valid : ValidDoc assignNoTireNote sectionHeaderList :=
  validDoc_structural assignNoTireNote sectionHeaderList (List.Perm.refl _)
    (by decide) (by decide)

theorem decode_nofuelnote_fuel :
    decodeSection fuelShape (assignNoFuelNote "FUEL RECORDS") =
      .error (.requiredColumnMissing "Note") := by decide

theorem decode_notirenote_tire :
    decodeSection tireShape (assignNoTireNote "TIRE LOG") =
      .error (.requiredColumnMissing "Note") := by decide

/-- A document whose FUEL RECORDS header row lacks the required Note
column fails with the fixed wrapped context. -/
theorem unmarshal_nofuelnote :
    UnmarshalRoadtrip NewVehicle (docOf assignNoFuelNote sectionHeaderList) =
      some (.error (.wrapped "unable to parse &[]"
        (.decode (.requiredColumnMissing "Note")))) := by
  rw [unmarshalRoadtrip_eq_assemble NewVehicle
      (docOf assignNoFuelNote sectionHeaderList)
      (decodeSection vehicleShape (assignNoFuelNote "VEHICLE"))
      (decodeSection fuelShape (assignNoFuelNote "FUEL RECORDS"))
      (decodeSection maintenanceShape
        (assignNoFuelNote "MAINTENANCE RECORDS"))
      (decodeSection tripShape (assignNoFuelNote "ROAD TRIPS"))
      (decodeSection tireShape (assignNoFuelNote "TIRE LOG"))
      (decodeSection valuationShape (assignNoFuelNote "VALUATIONS"))
      (unmarshal_section_valid assignNoFuelNote sectionHeaderList
        assignNoFuelNote_valid "VEHICLE" (by decide) _)
      (unmarshal_section_valid assignNoFuelNote sectionHeaderList
        assignNoFuelNote_valid "FUEL RECORDS" (by decide) _)
      (unmarshal_section_valid assignNoFuelNote sectionHeaderList
        assignNoFuelNote_valid "MAINTENANCE RECORDS" (by decide) _)
      (unmarshal_section_valid assignNoFuelNote sectionHeaderList
        assignNoFuelNote_valid "ROAD TRIPS" (by decide) _)
      (unmarshal_section_valid assignNoFuelNote sectionHeaderList
        assignNoFuelNote_valid "TIRE LOG" (by decide) _)
      (unmarshal_section_valid assignNoFuelNote sectionHeaderList
        assignNoFuelNote_valid "VALUATIONS" (by decide) _)]
  rw [show decodeSection vehicleShape (assignNoFuelNote "VEHICLE") = .ok []
      from decode_full_vehicle,
    decode_nofuelnote_fuel]
  rfl

/-- A document whose TIRE LOG header row lacks the required Note column
fails with the SAME wrapped error value. -/
theorem unmarshal_notirenote :
    UnmarshalRoadtrip NewVehicle (docOf assignNoTireNote sectionHeaderList) =
      some (.error (.wrapped "unable to parse &[]"
        (.decode (.requiredColumnMissing "Note")))) := by
  rw [unmarshalRoadtrip_eq_assemble NewVehicle
      (docOf assignNoTireNote sectionHeaderList)
      (decodeSection vehicleShape (assignNoTireNote "VEHICLE"))
      (decodeSection fuelShape (assignNoTireNote "FUEL RECORDS"))
      (decodeSection maintenanceShape
        (assignNoTireNote "MAINTENANCE RECORDS"))
      (decodeSection tripShape (assignNoTireNote "ROAD TRIPS"))
      (decodeSection tireShape (assignNoTireNote "TIRE LOG"))
      (decodeSection valuationShape (assignNoTireNote "VALUATIONS"))
      (unmarshal_section_valid assignNoTireNote sectionHeaderList
        assignNoTireNote_valid "VEHICLE" (by decide) _)
      (unmarshal_section_valid assignNoTireNote sectionHeaderList
        assignNoTireNote_valid "FUEL RECORDS" (by decide) _)
      (unmarshal_section_valid assignNoTireNote sectionHeaderList
        assignNoTireNote_valid "MAINTENANCE RECORDS" (by decide) _)
      (unmarshal_section_valid assignNoTireNote sectionHeaderList
        assignNoTireNote_valid "ROAD TRIPS" (by decide) _)
      (unmarshal_section_valid assignNoTireNote sectionHeaderList
        assignNoTireNote_valid "TIRE LOG" (by decide) _)
      (unmarshal_section_valid assignNoTireNote sectionHeaderList
        assignNoTireNote_valid "VALUATIONS" (by decide) _)]
  rw [show decodeSection vehicleShape (assignNoTireNote "VEHICLE") = .ok []
      from decode_full_vehicle,
    show decodeSection fuelShape (assignNoTireNote "FUEL RECORDS") = .ok []
      from decode_full_fuel,
    show decodeSection maintenanceShape
        (assignNoTireNote "MAINTENANCE RECORDS") = .ok []
      from decode_full_maintenance,
    show decodeSection tripShape (assignNoTireNote "ROAD TRIPS") = .ok []
      from decode_full_trip,
    decode_notirenote_tire]
  rfl

/-- C3 (counterexample): two documents failing in DIFFERENT sections
(FUEL RECORDS versus TIRE LOG) produce byte-for-byte identical wrapped
errors, so the wrapping context does not identify which section
failed. -/
theorem C3_context_not_identifying :
    UnmarshalRoadtrip NewVehicle (docOf assignNoFuelNote sectionHeaderList) =
      some (.error (.wrapped "unable to parse &[]"
        (.decode (.requiredColumnMissing "Note")))) ∧
    UnmarshalRoadtrip NewVehicle (docOf assignNoTireNote sectionHeaderList) =
      some (.error (.wrapped "unable to parse &[]"
        (.decode (.requiredColumnMissing "Note")))) ∧
    UnmarshalRoadtripSection (docOf assignNoFuelNote sectionHeaderList)
      fuelShape "FUEL RECORDS" =
        some (.error (.requiredColumnMissing "Note")) ∧
    UnmarshalRoadtripSection (docOf assignNoFuelNote sectionHeaderList)
      tireShape "TIRE LOG" = some (.ok []) ∧
    UnmarshalRoadtripSection (docOf assignNoTireNote sectionHeaderList)
      fuelShape "FUEL RECORDS" = some (.ok []) ∧
    UnmarshalRoadtripSection (docOf assignNoTireNote sectionHeaderList)
      tireShape "TIRE LOG" =
        some (.error (.requiredColumnMissing "Note")) := by
  refine ⟨unmarshal_nofuelnote, unmarshal_notirenote, ?_, ?_, ?_, ?_⟩
  · rw [unmarshal_section_valid assignNoFuelNote sectionHeaderList
      assignNoFuelNote_valid "FUEL RECORDS" (by decide) fuelShape,
      decode_nofuelnote_fuel]
  · rw [unmarshal_section_valid assignNoFuelNote sectionHeaderList
      assignNoFuelNote_valid "TIRE LOG" (by decide) tireShape]
    rw [show decodeSection tireShape (assignNoFuelNote "TIRE LOG") = .ok []
      from decode_full_tire]
  · rw [unmarshal_section_valid assignNoTireNote sectionHeaderList
      assignNoTireNote_valid "FUEL RECORDS" (by decide) fuelShape]
    rw [show decodeSection fuelShape (assignNoTireNote "FUEL RECORDS") =
        .ok [] from decode_full_fuel]
  · rw [unmarshal_section_valid assignNoTireNote sectionHeaderList
      assignNoTireNote_valid "TIRE LOG" (by decide) tireShape,
      decode_notirenote_tire]

/-- C3 witness: the all-success branch of the amended theorem at a
concrete fully decodable document. -/
theorem C3_error_propagation_witness :
    ∃ v', UnmarshalRoadtrip NewVehicle (docOf assignFull sectionHeaderList) =
      some (.ok v') := by
  have h := C3_error_propagation NewVehicle
    (docOf assignFull sectionHeaderList) ⟨rfl, rfl, rfl, rfl, rfl, rfl⟩
    (decodeSection vehicleShape (assignFull "VEHICLE"))
    (decodeSection fuelShape (assignFull "FUEL RECORDS"))
    (decodeSection maintenanceShape (assignFull "MAINTENANCE RECORDS"))
    (decodeSection tripShape (assignFull "ROAD TRIPS"))
    (decodeSection tireShape (assignFull "TIRE LOG"))
    (decodeSection valuationShape (assignFull "VALUATIONS"))
    (unmarshal_section_valid assignFull sectionHeaderList
      assignFull_valid_shl "VEHICLE" (by decide) _)
    (unmarshal_section_valid assignFull sectionHeaderList
      assignFull_valid_shl "FUEL RECORDS" (by decide) _)
    (unmarshal_section_valid assignFull sectionHeaderList
      assignFull_valid_shl "MAINTENANCE RECORDS" (by decide) _)
    (unmarshal_section_valid assignFull sectionHeaderList
      assignFull_valid_shl "ROAD TRIPS" (by decide) _)
    (unmarshal_section_valid assignFull sectionHeaderList
      assignFull_valid_shl "TIRE LOG" (by decide) _)
    (unmarshal_section_valid assignFull sectionHeaderList
      assignFull_valid_shl "VALUATIONS" (by decide) _)
  exact h.2.2 ⟨[], decode_full_vehicle⟩ ⟨[], decode_full_fuel⟩
    ⟨[], decode_full_maintenance⟩ ⟨[], decode_full_trip⟩
    ⟨[], decode_full_tire⟩ ⟨[], decode_full_valuation⟩

/-! ## Claim C7: empty sections decode to empty sequences -/

/-- C7: a section whose bytes form exactly one CSV row, a header row
providing every required column of the shape, decodes to the empty record
sequence, never an error. -/
theorem C7_empty_section (shape : List Field) (bytes : List Nat)
    (hdr : List Nat) (hrows : csvRows bytes = [hdr])
    (hreq : firstMissingRequired shape (parseFields hdr) = none) :
    decodeSection shape bytes = .ok [] := by
  unfold decodeSection
  rw [hrows]
  unfold decodeTable
  simp only [List.map]
  rw [hreq]
  rfl

/-- C7 witness: the VEHICLE shape on its bare header row. -/
theorem C7_empty_section_witness :
    decodeSection vehicleShape (assignFull "VEHICLE") = .ok [] :=
  C7_empty_section vehicleShape (assignFull "VEHICLE")
    (shapeHeaderRow (vehicleShape.filter (fun f => f.opt = false)))
    (by decide) (by decide)

/-! ## Claim C8: optional columns default and unknown columns are ignored -/

theorem indexOfCol_lt_length :
    ∀ (cols : List (List Nat)) (pat : List Nat) (j : Nat),
      indexOfCol cols pat = some j → j < cols.length := by
  intro cols
  induction cols with
  | nil => intro pat j h; cases h
  | cons c t ih =>
    intro pat j h
    unfold indexOfCol at h
    by_cases hc : c = pat
    · rw [if_pos hc] at h
      cases h
      simp
    · rw [if_neg hc] at h
      cases hidx : indexOfCol t pat with
      | none => rw [hidx] at h; cases h
      | some j2 =>
        rw [hidx] at h
        have hj := ih pat j2 hidx
        simp only [Option.map_some'] at h
        cases h
        simp
        omega

theorem indexOfCol_cons (c : List Nat) (t : List (List Nat))
    (pat : List Nat) :
    indexOfCol (c :: t) pat =
      if c = pat then some 0 else (indexOfCol t pat).map (· + 1) := rfl

theorem indexOfCol_concat (cols : List (List Nat)) (c pat : List Nat)
    (hne : pat ≠ c) :
    indexOfCol (cols ++ [c]) pat = indexOfCol cols pat := by
  induction cols with
  | nil =>
    rw [List.nil_append, indexOfCol_cons, if_neg (fun hh => hne hh.symm)]
    rfl
  | cons a t ih =>
    rw [List.cons_append, indexOfCol_cons, indexOfCol_cons]
    by_cases ha : a = pat
    · rw [if_pos ha, if_pos ha]
    · rw [if_neg ha, if_neg ha, ih]

theorem firstMissingRequired_concat (shape : List Field)
    (cols : List (List Nat)) (c : List Nat)
    (hc : ∀ f ∈ shape, strBytes f.col ≠ c) :
    firstMissingRequired shape (cols ++ [c]) =
      firstMissingRequired shape cols := by
  induction shape with
  | nil => rfl
  | cons f fs ih =>
    unfold firstMissingRequired
    rw [indexOfCol_concat cols c (strBytes f.col)
      (hc f (List.mem_cons_self f fs))]
    rw [ih (fun g hg => hc g (List.mem_cons_of_mem f hg))]

theorem fieldValue_concat (f : Field) (cols : List (List Nat))
    (r : List (List Nat)) (ri : Nat) (c v : List Nat)
    (hne : strBytes f.col ≠ c) (hlen : r.length = cols.length) :
    fieldValue f (cols ++ [c]) (r ++ [v]) ri = fieldValue f cols r ri := by
  unfold fieldValue
  rw [indexOfCol_concat cols c (strBytes f.col) hne]
  cases hidx : indexOfCol cols (strBytes f.col) with
  | none => rfl
  | some j =>
    have hj : j < r.length := by
      rw [hlen]
      exact indexOfCol_lt_length cols (strBytes f.col) j hidx
    show parseTyped f ((r ++ [v]).getD j []) ri = parseTyped f (r.getD j []) ri
    rw [List.getD_eq_getElem?_getD, List.getD_eq_getElem?_getD,
      List.getElem?_append_left hj]

theorem decodeFieldList_concat (cols : List (List Nat))
    (r : List (List Nat)) (ri : Nat) (c v : List Nat)
    (hlen : r.length = cols.length) :
    ∀ shape : List Field, (∀ f ∈ shape, strBytes f.col ≠ c) →
      decodeFieldList (cols ++ [c]) (r ++ [v]) ri shape =
        decodeFieldList cols r ri shape := by
  intro shape
  induction shape with
  | nil => intro _; rfl
  | cons f fs ih =>
    intro hc
    unfold decodeFieldList
    rw [fieldValue_concat f cols r ri c v (hc f (List.mem_cons_self f fs))
      hlen]
    rw [ih (fun g hg => hc g (List.mem_cons_of_mem f hg))]

theorem decodeRow_concat (shape : List Field) (cols : List (List Nat))
    (ri : Nat) (r : List (List Nat)) (c v : List Nat)
    (hc : ∀ f ∈ shape, strBytes f.col ≠ c) :
    decodeRow shape (cols ++ [c]) ri (r ++ [v]) =
      decodeRow shape cols ri r := by
  unfold decodeRow
  by_cases hlen : r.length = cols.length
  · rw [if_pos (by simp [hlen]), if_pos hlen]
    exact decodeFieldList_concat cols r ri c v hlen shape hc
  · rw [if_neg (by simp [hlen]), if_neg hlen]

theorem decodeDataRows_concat (shape : List Field) (cols : List (List Nat))
    (c v : List Nat) (hc : ∀ f ∈ shape, strBytes f.col ≠ c) :
    ∀ (rows : List (List (List Nat))) (ri : Nat),
      decodeDataRows shape (cols ++ [c]) ri
          (rows.map (fun r => r ++ [v])) =
        decodeDataRows shape cols ri rows := by
  intro rows
  induction rows with
  | nil => intro ri; rfl
  | cons r rest ih =>
    intro ri
    simp only [List.map]
    unfold decodeDataRows
    rw [decodeRow_concat shape cols ri r c v hc, ih (ri + 1)]

/-- Zero value of an optional field whose column is absent, along one
record of a decoded row list. -/
theorem decodeFieldList_lookup_zero (cols : List (List Nat))
    (row : List (List Nat)) (ri : Nat) :
    ∀ (shape : List Field) (rec : CsvRecord),
      decodeFieldList cols row ri shape = .ok rec →
      ∀ f ∈ shape, (shape.map Field.goName).Nodup →
        indexOfCol cols (strBytes f.col) = none →
        List.lookup f.goName rec = some (zeroOf f.ty) := by
  intro shape
  induction shape with
  | nil => intro rec _ f hf; cases hf
  | cons g gs ih =>
    intro rec hrec f hf hnd hnone
    unfold decodeFieldList at hrec
    cases hfv : fieldValue g cols row ri with
    | error e => rw [hfv] at hrec; cases hrec
    | ok v =>
      rw [hfv] at hrec
      cases hrest : decodeFieldList cols row ri gs with
      | error e => rw [hrest] at hrec; cases hrec
      | ok rest =>
        rw [hrest] at hrec
        cases hrec
        rcases List.mem_cons.mp hf with rfl | hf2
        · have hv : v = zeroOf f.ty := by
            unfold fieldValue at hfv
            rw [hnone] at hfv
            cases hfv
            rfl
          rw [hv]
          simp [List.lookup]
        · have hgn : f.goName ≠ g.goName := by
            intro hcontra
            have hmem : f.goName ∈ gs.map Field.goName :=
              List.mem_map.mpr ⟨f, hf2, rfl⟩
            rw [List.map_cons] at hnd
            exact (List.nodup_cons.mp hnd).1 (hcontra ▸ hmem)
          have hnd2 : (gs.map Field.goName).Nodup := by
            rw [List.map_cons] at hnd
            exact (List.nodup_cons.mp hnd).2
          simp only [List.lookup, beq_false_of_ne hgn]
          exact ih rest hrest f hf2 hnd2 hnone

theorem decodeDataRows_lookup_zero (shape : List Field)
    (cols : List (List Nat)) (f : Field) (hf : f ∈ shape)
    (hnd : (shape.map Field.goName).Nodup)
    (hnone : indexOfCol cols (strBytes f.col) = none) :
    ∀ (rows : List (List (List Nat))) (ri : Nat) (recs : List CsvRecord),
      decodeDataRows shape cols ri rows = .ok recs →
      ∀ r ∈ recs, List.lookup f.goName r = some (zeroOf f.ty) := by
  intro rows
  induction rows with
  | nil =>
    intro ri recs h r hr
    unfold decodeDataRows at h
    cases h
    cases hr
  | cons line rest ih =>
    intro ri recs h r hr
    unfold decodeDataRows at h
    cases hrow : decodeRow shape cols ri line with
    | error e => rw [hrow] at h; cases h
    | ok rec =>
      rw [hrow] at h
      cases hrest : decodeDataRows shape cols (ri + 1) rest with
      | error e => rw [hrest] at h; cases h
      | ok recs2 =>
        rw [hrest] at h
        cases h
        rcases List.mem_cons.mp hr with rfl | hr2
        · unfold decodeRow at hrow
          by_cases hlen : line.length = cols.length
          · rw [if_pos hlen] at hrow
            exact decodeFieldList_lookup_zero cols line ri shape r hrow
              f hf hnd hnone
          · rw [if_neg hlen] at hrow
            cases hrow
        · exact ih (ri + 1) recs2 hrest r hr2

/-- C8: decoding maps columns by name: a shape field marked optional
whose column is absent from the header row takes the zero value of its
type in every decoded record, and a column appended to the CSV but absent
from the shape is ignored (the decode result is unchanged). -/
theorem C8_optional_defaults_and_extras_ignored (shape : List Field)
    (cols : List (List Nat)) (rows : List (List (List Nat))) :
    (∀ recs : List CsvRecord, decodeTable shape (cols :: rows) = .ok recs →
      ∀ f ∈ shape, (shape.map Field.goName).Nodup →
        indexOfCol cols (strBytes f.col) = none →
        ∀ r ∈ recs, List.lookup f.goName r = some (zeroOf f.ty)) ∧
    (∀ c v : List Nat, (∀ f ∈ shape, strBytes f.col ≠ c) →
      decodeTable shape ((cols ++ [c]) :: rows.map (fun r => r ++ [v])) =
        decodeTable shape (cols :: rows)) := by
  have htab : ∀ (cs : List (List Nat)) (rws : List (List (List Nat))),
      decodeTable shape (cs :: rws) =
        (match firstMissingRequired shape cs with
          | some cl => .error (.requiredColumnMissing cl)
          | none => decodeDataRows shape cs 0 rws) := fun _ _ => rfl
  constructor
  · intro recs hrecs f hf hnd hnone
    rw [htab] at hrecs
    cases hmiss : firstMissingRequired shape cols with
    | some col => rw [hmiss] at hrecs; cases hrecs
    | none =>
      rw [hmiss] at hrecs
      exact decodeDataRows_lookup_zero shape cols f hf hnd hnone rows 0
        recs hrecs
  · intro c v hc
    rw [htab, htab, firstMissingRequired_concat shape cols c hc]
    cases hmiss : firstMissingRequired shape cols with
    | some col => rfl
    | none => exact decodeDataRows_concat shape cols c v hc rows 0

/-- C8 witness: a VEHICLE section with one data row and the optional Tank
columns absent decodes with the Tank1Type field at its zero value, and
appending an unknown column leaves the decode unchanged. -/
theorem C8_optional_defaults_and_extras_ignored_witness :
    (∀ recs : List CsvRecord,
      decodeTable vehicleShape
        (parseFields (shapeHeaderRow
            (vehicleShape.filter (fun f => f.opt = false))) ::
          [parseFields (strBytes
            "Ranger,50000,Miles,,,Gallons,USD,,,Gallons,Miles,MPH,F,0,0")]) =
        .ok recs →
      ∀ f ∈ vehicleShape, (vehicleShape.map Field.goName).Nodup →
        indexOfCol (parseFields (shapeHeaderRow
          (vehicleShape.filter (fun f => f.opt = false))))
          (strBytes f.col) = none →
        ∀ r ∈ recs, List.lookup f.goName r = some (zeroOf f.ty)) ∧
    (∀ c v : List Nat, (∀ f ∈ vehicleShape, strBytes f.col ≠ c) →
      decodeTable vehicleShape
          ((parseFields (shapeHeaderRow
              (vehicleShape.filter (fun f => f.opt = false))) ++ [c]) ::
            [parseFields (strBytes
              "Ranger,50000,Miles,,,Gallons,USD,,,Gallons,Miles,MPH,F,0,0")
              ++ [v]]) =
        decodeTable vehicleShape
          (parseFields (shapeHeaderRow
              (vehicleShape.filter (fun f => f.opt = false))) ::
            [parseFields (strBytes
              "Ranger,50000,Miles,,,Gallons,USD,,,Gallons,Miles,MPH,F,0,0")])) :=
  C8_optional_defaults_and_extras_ignored vehicleShape
    (parseFields (shapeHeaderRow (vehicleShape.filter (fun f => f.opt = false))))
    [parseFields (strBytes
      "Ranger,50000,Miles,,,Gallons,USD,,,Gallons,Miles,MPH,F,0,0")]

/-! ## Claim C10: the version and language preamble is never consulted -/

/-- Frame property of the load pipeline: the Delimiters, Version,
Language and Filename fields pass through untouched, and every error is a
wrapped section decode error. -/
theorem unmarshalRoadtrip_frame (v : Vehicle) (data : List Nat) :
    (∀ v' : Vehicle, UnmarshalRoadtrip v data = some (.ok v') →
      v'.Delimiters = v.Delimiters ∧ v'.Version = v.Version ∧
      v'.Language = v.Language ∧ v'.Filename = v.Filename) ∧
    (∀ ge : GoError, UnmarshalRoadtrip v data = some (.error ge) →
      ∃ ctx e, ge = .wrapped ctx (.decode e)) := by
  constructor
  · intro v' h
    unfold UnmarshalRoadtrip at h
    repeat' split at h
    all_goals simp at h
    rw [← h]
    simp
  · intro ge h
    unfold UnmarshalRoadtrip at h
    repeat' split at h
    all_goals simp at h
    all_goals exact ⟨_, _, h.symm⟩

/-- C10: a successful LoadFile leaves the Delimiters, Version and
Language fields of a fresh Vehicle at their zero values, and any load
error is a wrapped section decode error, never a version or language
complaint: the SupportedVersion constant and the file preamble are never
consulted. -/
theorem C10_preamble_ignored (filename : String) (contents : List Nat) :
    (∀ v' : Vehicle, LoadFile NewVehicle filename contents = some (.ok v') →
      v'.Delimiters = "" ∧ v'.Version = 0 ∧ v'.Language = "" ∧
      v'.Filename = filename) ∧
    (∀ ge : GoError, LoadFile NewVehicle filename contents =
        some (.error ge) → ∃ ctx e, ge = .wrapped ctx (.decode e)) := by
  unfold LoadFile
  constructor
  · intro v' h
    have hf := (unmarshalRoadtrip_frame {NewVehicle with Filename := filename}
      _).1 v' h
    simpa [NewVehicle] using hf
  · intro ge h
    exact (unmarshalRoadtrip_frame {NewVehicle with Filename := filename}
      _).2 ge h

/-- C10 witness: a concrete successful load whose preamble-free fields
stay zero. -/
theorem C10_preamble_ignored_witness :
    (emptyLoaded {NewVehicle with Filename := "test.csv"}
        (docOf assignFull sectionHeaderList)).Delimiters = "" ∧
    (emptyLoaded {NewVehicle with Filename := "test.csv"}
        (docOf assignFull sectionHeaderList)).Version = 0 ∧
    (emptyLoaded {NewVehicle with Filename := "test.csv"}
        (docOf assignFull sectionHeaderList)).Language = "" ∧
    (emptyLoaded {NewVehicle with Filename := "test.csv"}
        (docOf assignFull sectionHeaderList)).Filename = "test.csv" := by
  apply (C10_preamble_ignored "test.csv"
    (docOf assignFull sectionHeaderList)).1
  show LoadFile NewVehicle "test.csv" (docOf assignFull sectionHeaderList) =
    some (.ok (emptyLoaded {NewVehicle with Filename := "test.csv"}
      (docOf assignFull sectionHeaderList)))
  unfold LoadFile
  rw [show (if RemoveErroneousHeaders then
      bytesReplaceOnce (docOf assignFull sectionHeaderList) omitHeaders
    else docOf assignFull sectionHeaderList) =
      bytesReplaceOnce (docOf assignFull sectionHeaderList) omitHeaders
    from rfl]
  rw [bytesReplaceOnce_of_no_occurrence _ _ (by decide)]
  exact unmarshal_full_shl {NewVehicle with Filename := "test.csv"}

/-! ## Claim C4: idempotence of the erroneous-header strip -/

/-- C4 (counterexample): the strip is not idempotent on every byte
string; on the concatenation of two copies of the erroneous substring,
the first strip leaves one copy and the second strip removes it. -/
theorem C4_strip_not_idempotent :
    bytesReplaceOnce (bytesReplaceOnce (omitHeaders ++ omitHeaders) omitHeaders)
        omitHeaders ≠
      bytesReplaceOnce (omitHeaders ++ omitHeaders) omitHeaders := by decide

/-- C4 (amended): the strip of the erroneous VEHICLE header substring is
idempotent on every byte string whose once-stripped form no longer
contains the substring; removing the first occurrence can splice together
a new occurrence, so this side condition is needed, and on substring-free
input the strip is a no-op. -/
theorem C4_strip_idempotent_of_stripped (d : List Nat)
    (h : bytesIndex (bytesReplaceOnce d omitHeaders) omitHeaders = -1) :
    bytesReplaceOnce (bytesReplaceOnce d omitHeaders) omitHeaders =
      bytesReplaceOnce d omitHeaders :=
  bytesReplaceOnce_of_no_occurrence (bytesReplaceOnce d omitHeaders)
    omitHeaders h

/-- C4 witness: the amended idempotence at a concrete document that
contains the erroneous substring once. -/
theorem C4_strip_idempotent_of_stripped_witness :
    bytesReplaceOnce
        (bytesReplaceOnce (strBytes "Name,Odometer" ++ omitHeaders ++ [10])
          omitHeaders) omitHeaders =
      bytesReplaceOnce (strBytes "Name,Odometer" ++ omitHeaders ++ [10])
        omitHeaders :=
  C4_strip_idempotent_of_stripped
    (strBytes "Name,Odometer" ++ omitHeaders ++ [10]) (by decide)

/-! ## Claim C5: ParseDate layout fallback -/

/-- C5: ParseDate first attempts the year-month-day hour:minute layout
and on its failure falls back to year-month-day at midnight, otherwise
reports an error; the three sample inputs of the spec behave as
described. -/
theorem C5_parse_date_fallback :
    (∀ (s : String) (t : GoTime),
      parseLayoutDateTime s = some t → ParseDate s = .ok t) ∧
    (∀ (s : String) (t : GoTime), parseLayoutDateTime s = none →
      parseLayoutDate s = some t → ParseDate s = .ok t) ∧
    (∀ s : String, parseLayoutDateTime s = none → parseLayoutDate s = none →
      ParseDate s = .error ("unable to parse date " ++ s)) ∧
    ParseDate "2024-12-09 15:04" = .ok ⟨2024, 12, 9, 15, 4⟩ ∧
    ParseDate "2024-12-09" = .ok ⟨2024, 12, 9, 0, 0⟩ ∧
    ParseDate "not-a-date" = .error ("unable to parse date not-a-date") := by
  refine ⟨?_, ?_, ?_, ?_, ?_, ?_⟩
  · intro s t h
    unfold ParseDate
    rw [h]
  · intro s t h1 h2
    unfold ParseDate
    rw [h1, h2]
  · intro s h1 h2
    unfold ParseDate
    rw [h1, h2]
  · rfl
  · rfl
  · rfl

/-- C5 witness: the first conjunct applied at a concrete input. -/
theorem C5_parse_date_fallback_witness :
    ParseDate "2024-12-31 07:30" = .ok ⟨2024, 12, 31, 7, 30⟩ :=
  C5_parse_date_fallback.1 "2024-12-31 07:30" ⟨2024, 12, 31, 7, 30⟩ (by rfl)

/-! ## Claim C9: bounds of the computed section range -/

/-- C9 (counterexample): on the empty document with the registered header
VEHICLE, the recorded offset is -1, giving startPosition 7 and
endPosition 0, so start ≤ end fails and the Go slice expression
panics. -/
theorem C9_bounds_counterexample :
    goStartPosition ([] : List Nat) "VEHICLE" = 7 ∧
    goEndPosition ([] : List Nat) "VEHICLE" (sectionOffsets []) = 0 ∧
    GetSectionContents ([] : List Nat) "VEHICLE" = none := by decide

/-- C9 (amended): for every document, every registered header and every
map iteration order, 0 ≤ start and end ≤ document length always hold, but
start ≤ end can fail; the final slice is in bounds, and the function
returns, exactly when start ≤ end. -/
theorem C9_partial_bounds (data : List Nat) (h : String) (order : List Int)
    (hmem : h ∈ sectionHeaderList) :
    0 ≤ goStartPosition data h ∧
    goEndPosition data h order ≤ (data.length : Int) ∧
    (GetSectionContentsOrd data h order ≠ none ↔
      goStartPosition data h ≤ goEndPosition data h order) := by
  refine ⟨goStartPosition_nonneg data h hmem,
    goEndPosition_le_length data h order, ?_⟩
  constructor
  · intro hne
    by_contra hgt
    apply hne
    unfold GetSectionContentsOrd
    rw [if_neg]
    rintro ⟨_, h2, _⟩
    exact hgt h2
  · intro hle
    unfold GetSectionContentsOrd
    rw [if_pos ⟨goStartPosition_nonneg data h hmem, hle,
      goEndPosition_le_length data h order⟩]
    simp

/-- C9 witness: the amended bounds at a concrete document. -/
theorem C9_partial_bounds_witness :
    0 ≤ goStartPosition c1Doc "VEHICLE" ∧
    goEndPosition c1Doc "VEHICLE" (sectionOffsets c1Doc) ≤
      (c1Doc.length : Int) ∧
    (GetSectionContentsOrd c1Doc "VEHICLE" (sectionOffsets c1Doc) ≠ none ↔
      goStartPosition c1Doc "VEHICLE" ≤
        goEndPosition c1Doc "VEHICLE" (sectionOffsets c1Doc)) :=
  C9_partial_bounds c1Doc "VEHICLE" (sectionOffsets c1Doc) (by decide)

/-! ## Claim C1: the extracted byte range of a found section -/

/-- C1 (counterexample): the section content returned by
GetSectionContents ends one byte BEFORE the nearest following found
header offset, not at that offset as the claim states: with VEHICLE at
offset 0 and FUEL RECORDS at offset 11, the function returns the two
bytes AB while the claimed range is the three bytes AB plus the line
terminator. -/
theorem C1_end_offset_counterexample :
    bytesIndex c1Doc (strBytes "VEHICLE") = 0 ∧
    GetSectionContents c1Doc "VEHICLE" = some (strBytes "AB") ∧
    specClaimedContents c1Doc "VEHICLE" 0 = strBytes "AB\n" ∧
    strBytes "AB" ≠ strBytes "AB\n" := by decide

/-- C1 (amended): for every document in which the requested registered
header occurs, at offset k, and for every map iteration order, the
content range starts at k + header length + 1 and ends one byte before
the minimum found offset strictly after k, or at the document end when no
found offset follows; the range is returned whenever it is proper,
otherwise the slice expression faults. -/
theorem C1_section_contents (data : List Nat) (h : String) (order : List Int)
    (hmem : h ∈ sectionHeaderList) (hperm : order.Perm (sectionOffsets data))
    (k : Nat) (hidx : bytesIndex data (strBytes h) = (k : Int)) :
    (∀ m : Int, m ∈ sectionOffsets data → (k : Int) < m →
      (∀ e ∈ sectionOffsets data, (k : Int) < e → m ≤ e) →
      GetSectionContentsOrd data h order =
        (if (k : Int) + ((strBytes h).length : Int) + 1 ≤ m - 1 then
          some ((data.drop (k + (strBytes h).length + 1)).take
            (m - 1 - ((k : Int) + ((strBytes h).length : Int) + 1)).toNat)
        else none)) ∧
    ((∀ e ∈ sectionOffsets data, ¬ ((k : Int) < e)) →
      GetSectionContentsOrd data h order =
        (if k + (strBytes h).length + 1 ≤ data.length then
          some ((data.drop (k + (strBytes h).length + 1)).take
            (data.length - (k + (strBytes h).length + 1)))
        else none)) := by
  have hstart : goStartPosition data h =
      (k : Int) + ((strBytes h).length : Int) + 1 := by
    unfold goStartPosition
    rw [startOffset_eq_bytesIndex data h hmem, hidx]
  constructor
  · intro m hm hkm hmin
    have hend : goEndPosition data h order = m - 1 :=
      goEndPosition_of_next data h order hmem hperm k hidx m hm hkm hmin
    have hendle : m - 1 ≤ (data.length : Int) := by
      have := goEndPosition_le_length data h order
      rw [hend] at this
      exact this
    unfold GetSectionContentsOrd
    rw [hstart, hend]
    by_cases hc : (k : Int) + ((strBytes h).length : Int) + 1 ≤ m - 1
    · rw [if_pos ⟨by positivity, hc, hendle⟩, if_pos hc]
      have harg : ((k : Int) + ((strBytes h).length : Int) + 1).toNat =
          k + (strBytes h).length + 1 := by omega
      rw [harg]
    · have hng : ¬ (0 ≤ (k : Int) + ((strBytes h).length : Int) + 1 ∧
          (k : Int) + ((strBytes h).length : Int) + 1 ≤ m - 1 ∧
          m - 1 ≤ (data.length : Int)) := by
        rintro ⟨_, h2, _⟩
        exact hc h2
      rw [if_neg hng, if_neg hc]
  · intro hnone
    have hend : goEndPosition data h order = (data.length : Int) :=
      goEndPosition_of_last data h order hmem hperm k hidx hnone
    unfold GetSectionContentsOrd
    rw [hstart, hend]
    by_cases hc : k + (strBytes h).length + 1 ≤ data.length
    · rw [if_pos ⟨by positivity, by exact_mod_cast hc, le_refl _⟩, if_pos hc]
      have harg : ((k : Int) + ((strBytes h).length : Int) + 1).toNat =
          k + (strBytes h).length + 1 := by omega
      have harg2 : ((data.length : Int) -
          ((k : Int) + ((strBytes h).length : Int) + 1)).toNat =
          data.length - (k + (strBytes h).length + 1) := by omega
      rw [harg, harg2]
    · have hng : ¬ (0 ≤ (k : Int) + ((strBytes h).length : Int) + 1 ∧
          (k : Int) + ((strBytes h).length : Int) + 1 ≤ (data.length : Int) ∧
          (data.length : Int) ≤ (data.length : Int)) := by
        rintro ⟨_, h2, _⟩
        apply hc
        exact_mod_cast h2
      rw [if_neg hng, if_neg hc]

/-- C1 witness: the amended range computation at a concrete document with
a following section. -/
theorem C1_section_contents_witness :
    GetSectionContents c1Doc "VEHICLE" = some (strBytes "AB") := by
  have h := (C1_section_contents c1Doc "VEHICLE" (sectionOffsets c1Doc)
    (by decide) (List.Perm.refl _) 0 (by decide)).1 11 (by decide) (by decide)
    (by decide)
  exact h.trans (by decide)

end Roadtrip
